import Mathlib

/-!
Verification of the dnsparse DNS wire-format codec.

Bytes are modelled as `Nat` (callers keep them below 256), buffers as
`List Nat`, and buffer offsets as `Nat`.  Functions in the source that
can loop on adversarial input (the compression-pointer walks) are
embedded with an explicit fuel argument: a `none` result means the fuel
ran out, so `∀ fuel, f fuel x = none` states that the source function
diverges on `x`.
-/

set_option maxRecDepth 100000

namespace Dnsparse

/-- One decoded label unit: a compression pointer or a length-prefixed part.
Mirrors `enum LabelType` in `name.rs`. -/
inductive LabelType where
  | Pointer (ptr : Nat)
  | Part (len : Nat)
deriving DecidableEq, Repr

/-- `PTR_MASK` from `name.rs`. -/
def PTR_MASK : Nat := 192

/-- `LEN_MASK = !PTR_MASK` from `name.rs` (as a u8 complement). -/
def LEN_MASK : Nat := 63

/-- `LabelType::read` from `name.rs`: reads one label unit at offset `i`,
returning the unit and the advanced offset.  A first byte whose two top
bits are set is a pointer (the second byte may be missing, which fails);
any other byte is taken as a part whose length is its low six bits. -/
def LabelType.read (buf : List Nat) (i : Nat) : Option (LabelType × Nat) :=
  match buf.get? i with
  | some b =>
    if b &&& PTR_MASK = PTR_MASK then
      match buf.get? (i + 1) with
      | some p => some (LabelType.Pointer ((b &&& LEN_MASK) * 256 + p), i + 2)
      | none => none
    else
      some (LabelType.Part (b &&& LEN_MASK), i + 1 + (b &&& LEN_MASK))
  | none => none

/-- `read_rec` from `name.rs` (the inner worker of `Name::read`), with
explicit fuel.  State: current offset `i`, the decode's `global_start`
`gs`, the current record start `rs`, the shared `iteration` and `len`
`u8` counters.  Returns `none` when the fuel runs out (the source
recursion does not terminate on its own), otherwise the `bool` result
together with the final offset of the current frame: the source advances
the caller's cursor only in the outermost frame, so a pointer branch
discards the recursive frame's offset and keeps the offset just past the
two pointer bytes. -/
def readRecF (buf : List Nat) : Nat → Nat → Nat → Nat → Nat → Nat → Option (Bool × Nat)
  | 0, _, _, _, _, _ => none
  | fuel + 1, i, gs, rs, iter, len =>
    match LabelType.read buf i with
    | none => some (false, i)
    | some (LabelType.Pointer ptr, j) =>
      if ptr = gs ∨ (rs ≤ ptr ∧ ptr < j) then
        some (false, j)
      else
        (readRecF buf fuel ptr gs ptr iter len).map (fun p => (p.1, j))
    | some (LabelType.Part pl, j) =>
      if pl = 0 then
        some (true, j)
      else if len + pl ≤ 255 then
        if iter + 1 ≤ 255 then
          readRecF buf fuel j gs rs (iter + 1) (len + pl)
        else
          some (false, j)
      else
        some (false, j)

/-- `Name::read` from `name.rs`: whole-name decode starting at `i`, with
fuel.  Initialises `global_start := i`, `iteration := 0`, `len := 0`. -/
def nameReadF (buf : List Nat) (fuel i : Nat) : Option (Bool × Nat) :=
  readRecF buf fuel i i i 0 0

/-- `Labels::next` from `name.rs` (the label iterator step), with fuel.
Result `some none` is the iterator's `None`; `some (some (s, j))`
returns the label starting at offset `s` with new iterator offset `j`;
`none` means the fuel ran out (pointer chains can loop forever). -/
def labelsNextF (buf : List Nat) : Nat → Nat → Option (Option (Nat × Nat))
  | 0, _ => none
  | fuel + 1, i =>
    match LabelType.read buf i with
    | none => some none
    | some (LabelType.Pointer ptr, _) => labelsNextF buf fuel ptr
    | some (LabelType.Part len, j) =>
      if len = 0 then some none
      else some (some (j - len - 1, j))

/-- The buffer with two compression pointers at offsets 0 and 2 that
point at each other, and a third pointer at offset 4 (the decode start)
targeting offset 0. -/
def cycBuf : List Nat := [192, 2, 192, 0, 192, 0]

/-- The buffer whose first label unit is a pointer targeting offset 3,
which holds a terminating zero: a forward pointer past every offset
visited so far. -/
def fwdBuf : List Nat := [192, 3, 0, 0]

/-- `Error` from `error.rs`. -/
inductive Error where
  | MessageTooShort
  | MessageTooLong
  | Pointer
  | NameTooLong
deriving DecidableEq, Repr

/-- `ResponseCode` from `header.rs`. -/
inductive ResponseCode where
  | NoError
  | FormatError
  | ServerFailure
  | NonExistentDomain
  | NotImplemented
  | Refused
  | ExistentDomain
  | ExistentRrSet
  | NonExistentRrSet
  | NotAuthoritative
  | NotZone
  | BadOptVersionOrBadSignature
  | BadKey
  | BadTime
  | BadMode
  | BadName
  | BadAlg
  | Reserved (n : Nat)
deriving DecidableEq, Repr

/-- `impl From<ResponseCode> for u16` from `header.rs`. -/
def ResponseCode.toU16 : ResponseCode → Nat
  | .NoError => 0
  | .FormatError => 1
  | .ServerFailure => 2
  | .NonExistentDomain => 3
  | .NotImplemented => 4
  | .Refused => 5
  | .ExistentDomain => 6
  | .ExistentRrSet => 7
  | .NonExistentRrSet => 8
  | .NotAuthoritative => 9
  | .NotZone => 10
  | .BadOptVersionOrBadSignature => 16
  | .BadKey => 17
  | .BadTime => 18
  | .BadMode => 19
  | .BadName => 20
  | .BadAlg => 21
  | .Reserved n => n

/-- `impl From<u16> for ResponseCode` from `header.rs`. -/
def ResponseCode.fromU16 (n : Nat) : ResponseCode :=
  if n = 0 then .NoError
  else if n = 1 then .FormatError
  else if n = 2 then .ServerFailure
  else if n = 3 then .NonExistentDomain
  else if n = 4 then .NotImplemented
  else if n = 5 then .Refused
  else if n = 6 then .ExistentDomain
  else if n = 7 then .ExistentRrSet
  else if n = 8 then .NonExistentRrSet
  else if n = 9 then .NotAuthoritative
  else if n = 10 then .NotZone
  else if n = 16 then .BadOptVersionOrBadSignature
  else if n = 17 then .BadKey
  else if n = 18 then .BadTime
  else if n = 19 then .BadMode
  else if n = 20 then .BadName
  else if n = 21 then .BadAlg
  else .Reserved n

/-- Whether a `ResponseCode` is the `Reserved` variant. -/
def ResponseCode.isReserved : ResponseCode → Bool
  | .Reserved _ => true
  | _ => false

/-- `QueryKind` from `query_kind.rs`.  The declared discriminants are
`A = 1 … TXT = 16, AXFR = 252, MAILB = 253, MAILA = 254, ALL = 255`,
so the trailing `Reserved` variant implicitly has discriminant 256. -/
inductive QueryKind where
  | A | NS | MD | MF | CNAME | SOA | MB | MG | MR | NULL
  | WKS | PTR | HINFO | MINFO | MX | TXT
  | AXFR | MAILB | MAILA | ALL
  | Reserved
deriving DecidableEq, Repr

/-- The `repr(u16)` discriminant of each `QueryKind` variant, i.e. the
value of `self as u16` used by `QueryKind::to_be_bytes`. -/
def QueryKind.toU16 : QueryKind → Nat
  | .A => 1
  | .NS => 2
  | .MD => 3
  | .MF => 4
  | .CNAME => 5
  | .SOA => 6
  | .MB => 7
  | .MG => 8
  | .MR => 9
  | .NULL => 10
  | .WKS => 11
  | .PTR => 12
  | .HINFO => 13
  | .MINFO => 14
  | .MX => 15
  | .TXT => 16
  | .AXFR => 252
  | .MAILB => 253
  | .MAILA => 254
  | .ALL => 255
  | .Reserved => 256

/-- `impl From<u16> for QueryKind` from `query_kind.rs`.  Note the source
maps `253 => Self::MAILA` and `254 => Self::MAILB`. -/
def QueryKind.fromU16 (n : Nat) : QueryKind :=
  if n = 1 then .A
  else if n = 2 then .NS
  else if n = 3 then .MD
  else if n = 4 then .MF
  else if n = 5 then .CNAME
  else if n = 6 then .SOA
  else if n = 7 then .MB
  else if n = 8 then .MG
  else if n = 9 then .MR
  else if n = 10 then .NULL
  else if n = 11 then .WKS
  else if n = 12 then .PTR
  else if n = 13 then .HINFO
  else if n = 14 then .MINFO
  else if n = 15 then .MX
  else if n = 16 then .TXT
  else if n = 252 then .AXFR
  else if n = 253 then .MAILA
  else if n = 254 then .MAILB
  else if n = 255 then .ALL
  else .Reserved

/-- `QueryKind::to_be_bytes` from `query_kind.rs`: `(self as u16).to_be_bytes()`. -/
def QueryKind.toBeBytes (k : QueryKind) : Nat × Nat :=
  (k.toU16 / 256 % 256, k.toU16 % 256)

/-- `QueryClass` from `query_class.rs`. -/
inductive QueryClass where
  | IN | CS | CH | HS | Reserved
deriving DecidableEq, Repr

/-- The `repr(u16)` discriminant of each `QueryClass` variant. -/
def QueryClass.toU16 : QueryClass → Nat
  | .IN => 1
  | .CS => 2
  | .CH => 3
  | .HS => 4
  | .Reserved => 5

/-- `QueryClass::to_be_bytes` from `query_class.rs`. -/
def QueryClass.toBeBytes (c : QueryClass) : Nat × Nat :=
  (c.toU16 / 256 % 256, c.toU16 % 256)

/-- A name of five labels whose lengths sum to 256, one over the 255-byte
limit: four labels of 63 bytes and one of 4 bytes. -/
def longNameBuf : List Nat :=
  (63 :: List.replicate 63 97) ++ (63 :: List.replicate 63 97) ++
  (63 :: List.replicate 63 97) ++ (63 :: List.replicate 63 97) ++
  (4 :: List.replicate 4 97) ++ [0]

/-- `HEADER_SIZE = size_of::<Header>()` from `message.rs`. -/
def HEADER_SIZE : Nat := 12

/-- `MAX_MESSAGE_SIZE = 512 - HEADER_SIZE` from `message.rs`. -/
def MAX_MESSAGE_SIZE : Nat := 512 - HEADER_SIZE

/-- `u16::from_be_bytes` on two bytes. -/
def beU16 (hi lo : Nat) : Nat := hi * 256 + lo

/-- `Message` from `message.rs`: the backing buffer plus the logical
length of the bytes in use. -/
structure Msg where
  buf : List Nat
  len : Nat
deriving DecidableEq, Repr

/-- `Message::as_bytes`: `&self.buf[..self.len]`. -/
def Msg.asBytes (m : Msg) : List Nat := m.buf.take m.len

/-- `Header::question_count` read from the message bytes (big-endian
bytes 4 and 5 of the header region). -/
def headerQuestionCount (buf : List Nat) : Nat := beU16 (buf.getD 4 0) (buf.getD 5 0)

/-- `Header::answer_count` read from the message bytes (big-endian bytes
6 and 7 of the header region). -/
def headerAnswerCount (buf : List Nat) : Nat := beU16 (buf.getD 6 0) (buf.getD 7 0)

/-- `read_question` from `question.rs`: a name followed by the 2-byte
kind and 2-byte class, the latter bounds-checked against the buffer
(`read_query_class_and_kind`).  On failure, the cursor is left where the
failing step left it. -/
def questionReadF (buf : List Nat) (fuel i : Nat) : Option (Bool × Nat) :=
  match nameReadF buf fuel i with
  | none => none
  | some (false, j) => some (false, j)
  | some (true, j) =>
    if j + 4 ≤ buf.length then some (true, j + 4) else some (false, j)

/-- `Answer::read` from `answer.rs`: name, 2-byte kind, 2-byte class,
4-byte ttl, then `read_rdata` (2-byte big-endian length, then that many
bytes), each step bounds-checked against the buffer. -/
def answerReadF (buf : List Nat) (fuel i : Nat) : Option (Bool × Nat) :=
  match nameReadF buf fuel i with
  | none => none
  | some (false, j) => some (false, j)
  | some (true, j) =>
    if j + 2 ≤ buf.length then
      if j + 2 + 2 ≤ buf.length then
        if j + 4 + 4 ≤ buf.length then
          if j + 8 + 2 ≤ buf.length then
            if j + 10 + (beU16 (buf.getD (j + 8) 0) (buf.getD (j + 9) 0)) ≤ buf.length then
              some (true, j + 10 + (beU16 (buf.getD (j + 8) 0) (buf.getD (j + 9) 0)))
            else some (false, j + 10)
          else some (false, j + 8)
        else some (false, j + 4)
      else some (false, j + 2)
    else some (false, j)

/-- The `for _ in 0..count` record loops in `Message::parse`,
`questions_end` and `answers_end`: run `reader` `n` times from cursor
`i`, stopping at the first failure. -/
def readRecordsF (buf : List Nat) (reader : List Nat → Nat → Nat → Option (Bool × Nat))
    (fuel : Nat) : Nat → Nat → Option (Bool × Nat)
  | 0, i => some (true, i)
  | n + 1, i =>
    match reader buf fuel i with
    | none => none
    | some (false, j) => some (false, j)
    | some (true, j) => readRecordsF buf reader fuel n j

/-- `Message::parse` from `message.rs`: size checks, then
`question_count` questions followed by `answer_count` answers starting
at the end of the header; the final cursor becomes the logical length.
The outer `Option` is fuel exhaustion; the inner `Option` is the parse
result (`none` for any parse error — the record readers under `src/`
return a plain `bool`, so the propagated `Error` value is not
distinguishable from the source). -/
def parseF (fuel : Nat) (buffer : List Nat) : Option (Option Msg) :=
  if buffer.length < HEADER_SIZE then some none
  else if buffer.length > HEADER_SIZE + MAX_MESSAGE_SIZE then some none
  else
    match readRecordsF buffer questionReadF fuel (headerQuestionCount buffer) HEADER_SIZE with
    | none => none
    | some (false, _) => some none
    | some (true, i1) =>
      match readRecordsF buffer answerReadF fuel (headerAnswerCount buffer) i1 with
      | none => none
      | some (false, _) => some none
      | some (true, i2) => some (some { buf := buffer, len := i2 })

/-- `u8::to_ascii_lowercase`. -/
def toAsciiLower (c : Nat) : Nat := if 65 ≤ c ∧ c ≤ 90 then c + 32 else c

/-- `u8::eq_ignore_ascii_case` on single bytes. -/
def eqIC (a b : Nat) : Bool := decide (toAsciiLower a = toAsciiLower b)

/-- `<[u8]>::eq_ignore_ascii_case`: equal length and bytewise
case-insensitive equality. -/
def eqICList : List Nat → List Nat → Bool
  | [], [] => true
  | a :: l1, b :: l2 => eqIC a b && eqICList l1 l2
  | _, _ => false

/-- A bounds-checked byte-range slice `&buf[a..a+n]`: `none` models the
panic on an out-of-range index. -/
def sliceOpt (buf : List Nat) (a n : Nat) : Option (List Nat) :=
  if a + n ≤ buf.length then some ((buf.drop a).take n) else none

/-- `impl PartialEq<str> for Name` from `name.rs`, with the `Labels`
iterator inlined (each pointer jump and each label consumes one unit of
fuel).  `other` is the compared string as bytes and `oi` is `other_i`.
A label's start is `j - len - 1` as in `Labels::next`, and — exactly as
in the source — both the substring width and `label.as_bytes()` use the
raw length byte `buf[start]`, not the masked `len`.  Result `none`
models fuel exhaustion or the slice panic in `label.as_bytes()`. -/
def nameEqF (buf other : List Nat) : Nat → Nat → Nat → Option Bool
  | 0, _, _ => none
  | fuel + 1, i, oi =>
    match LabelType.read buf i with
    | none => some (decide (oi = other.length))
    | some (LabelType.Pointer ptr, _) => nameEqF buf other fuel ptr oi
    | some (LabelType.Part len, j) =>
      if len = 0 then some (decide (oi = other.length))
      else if oi ≠ 0 ∧ other.get? oi ≠ some 46 then some false
      else if (if oi = 0 then oi else oi + 1) + buf.getD (j - len - 1) 0 ≤ other.length then
        match sliceOpt buf (j - len - 1 + 1) (buf.getD (j - len - 1) 0) with
        | none => none
        | some lb =>
          if eqICList lb
              ((other.drop (if oi = 0 then oi else oi + 1)).take (buf.getD (j - len - 1) 0))
          then nameEqF buf other fuel j
            ((if oi = 0 then oi else oi + 1) + buf.getD (j - len - 1) 0)
          else some false
      else some false

/-- The suffix of the dotted form after at least one label has been
consumed: empty when no labels remain, otherwise a dot followed by the
remaining labels joined by dots. -/
def dottedTail : List (List Nat) → List Nat
  | [] => []
  | l :: ls => 46 :: (l ++ dottedTail ls)

/-- The dotted UTF-8 form of a label sequence: the labels in order,
separated by single dots (the spec's description of the string a `Name`
compares equal to). -/
def dotted : List (List Nat) → List Nat
  | [] => []
  | l :: ls => l ++ dottedTail ls

/-- The label sequence of a decoded name: walking the buffer from offset
`i` yields exactly the labels `ls` (following pointers), every label is
nonempty with an unmasked length byte, all its bytes are in bounds, and
the walk ends at a zero length byte. -/
inductive NameLabels (buf : List Nat) : Nat → List (List Nat) → Prop where
  | nil {i j : Nat}
      (hr : LabelType.read buf i = some (LabelType.Part 0, j)) : NameLabels buf i []
  | ptr {i p j : Nat} {ls : List (List Nat)}
      (hr : LabelType.read buf i = some (LabelType.Pointer p, j))
      (hn : NameLabels buf p ls) : NameLabels buf i ls
  | cons {i len j : Nat} {l : List Nat} {ls : List (List Nat)}
      (hr : LabelType.read buf i = some (LabelType.Part len, j))
      (hne : len ≠ 0) (hgetD : buf.getD i 0 = len)
      (hslice : sliceOpt buf (i + 1) len = some l)
      (hn : NameLabels buf j ls) : NameLabels buf i (l :: ls)

/-- The wire encoding of the name captive.apple.com. -/
def capName : List Nat :=
  [7, 99, 97, 112, 116, 105, 118, 101, 5, 97, 112, 112, 108, 101, 3, 99, 111, 109, 0]

/-- The label sequence of captive.apple.com. -/
def capLabels : List (List Nat) :=
  [[99, 97, 112, 116, 105, 118, 101], [97, 112, 112, 108, 101], [99, 111, 109]]

/-- The bytes of the string captive.apple.com. -/
def strLower : List Nat :=
  [99, 97, 112, 116, 105, 118, 101, 46, 97, 112, 112, 108, 101, 46, 99, 111, 109]

/-- The bytes of the string CAPTIVE.APPLE.COM. -/
def strUpper : List Nat :=
  [67, 65, 80, 84, 73, 86, 69, 46, 65, 80, 80, 76, 69, 46, 67, 79, 77]

/-- The bytes of the string captive-apple-com. -/
def strDashes : List Nat :=
  [99, 97, 112, 116, 105, 118, 101, 45, 97, 112, 112, 108, 101, 45, 99, 111, 109]

/-- The 48-byte captive.apple.com query buffer from the crate's test
suite: a 12-byte header with one question, the question, and 13 bytes of
trailing padding. -/
def capBuf : List Nat :=
  [30, 252, 1, 0, 0, 1, 0, 0, 0, 0, 0, 0,
   7, 99, 97, 112, 116, 105, 118, 101,
   5, 97, 112, 112, 108, 101,
   3, 99, 111, 109,
   0,
   0, 1, 0, 1,
   0, 0, 0, 0, 0, 0, 0, 0, 0, 0, 0, 0, 0]

/-- The pointer-free wire encoding of a label sequence: each label as a
length byte followed by its bytes, terminated by a zero byte. -/
def wire : List (List Nat) → List Nat
  | [] => [0]
  | l :: ls => (l.length :: l) ++ wire ls

/-- Total number of label content bytes of a label sequence. -/
def labelsTotal (ls : List (List Nat)) : Nat := (ls.map List.length).sum

/-- The wire encoding of `ls` sits in `buf` at offset `i`: each label's
length byte and content bytes are present and in bounds, ending with a
zero byte. -/
def WireAt (buf : List Nat) : Nat → List (List Nat) → Prop
  | i, [] => buf.get? i = some 0
  | i, l :: ls =>
    buf.get? i = some l.length ∧ sliceOpt buf (i + 1) l.length = some l ∧
      WireAt buf (i + 1 + l.length) ls

/-- Label sequences equal label-for-label under ASCII case-insensitive
byte comparison. -/
def labelsEqIC : List (List Nat) → List (List Nat) → Bool
  | [], [] => true
  | l1 :: t1, l2 :: t2 => eqICList l1 l2 && labelsEqIC t1 t2
  | _, _ => false

/-- `Name::equal_from` from `name.rs`: compare the label streams of
`(buf1, i)` and `(buf2, j)` pointwise with `eq_ignore_ascii_case`,
requiring both to end together.  Fuelled; `none` models divergence or an
out-of-bounds `as_str`. -/
def equalFromF (buf1 buf2 : List Nat) : Nat → Nat → Nat → Option Bool
  | 0, _, _ => none
  | fuel + 1, i, j =>
    match labelsNextF buf1 (fuel + 1) i, labelsNextF buf2 (fuel + 1) j with
    | none, _ => none
    | _, none => none
    | some none, some none => some true
    | some (some (s1, i')), some (some (s2, j')) =>
      match sliceOpt buf1 (s1 + 1) (buf1.getD s1 0), sliceOpt buf2 (s2 + 1) (buf2.getD s2 0) with
      | some b1, some b2 =>
        if eqICList b1 b2 then equalFromF buf1 buf2 fuel i' j'
        else some false
      | _, _ => none
    | _, _ => some false

/-- `Name::create_pointer` from `name.rs`: walk the label starts of
`(buf1, ·)` from `i`; at the first start whose label stream equals the
sub-name `(buf2, start2)` case-insensitively, build the two pointer
bytes `(start as u16).to_be_bytes()` with the top two bits set on the
first byte.  Fuelled on the number of label starts tried. -/
def createPointerF (buf1 buf2 : List Nat) (start2 : Nat) : Nat → Nat → Option (Option (Nat × Nat))
  | 0, _ => none
  | fuel + 1, i =>
    match labelsNextF buf1 (fuel + 1) i with
    | none => none
    | some none => some none
    | some (some (_, i')) =>
      match equalFromF buf1 buf2 (fuel + 1) i start2 with
      | none => none
      | some true => some (some ((i / 256 % 256) ||| 192, i % 256))
      | some false => createPointerF buf1 buf2 start2 fuel i'

/-- `Message::add_pointer` from `message.rs`: iterate the message's
questions (the iterator re-reads each question record, asserting
success); for each, try `create_pointer` from the question's name start
to the target name `(nbuf, nstart)`.  `k` is the remaining question
count and `qi` the record cursor (starting at `HEADER_SIZE`). -/
def addPointerF (mbytes nbuf : List Nat) (nstart fuel : Nat) : Nat → Nat → Option (Option (Nat × Nat))
  | 0, _ => some none
  | k + 1, qi =>
    match questionReadF mbytes fuel qi with
    | none => none
    | some (false, _) => none
    | some (true, qi') =>
      match createPointerF mbytes nbuf nstart fuel qi with
      | none => none
      | some (some p) => some (some p)
      | some none => addPointerF mbytes nbuf nstart fuel k qi'

/-- `Message::insert` from `message.rs`: shift the bytes in
`[i, len)` right by `bytes.len()`, copy the new bytes in at `i`, and
grow the logical length and the cursor.  Every caller passes `i ≤ len`;
an insertion past the backing capacity panics (`none`). -/
def insertOpt (m : Msg) (i : Nat) (bs : List Nat) : Option (Msg × Nat) :=
  if i ≤ m.len ∧ m.len + bs.length ≤ m.buf.length then
    some ({ buf := m.buf.take i ++ bs ++ ((m.buf.drop i).take (m.len - i)) ++
              m.buf.drop (m.len + bs.length),
            len := m.len + bs.length }, i + bs.length)
  else none

/-- `Message::questions_end`: skip `question_count` question records in
`as_bytes()`, asserting each read succeeds. -/
def questionsEndF (m : Msg) (fuel : Nat) : Option Nat :=
  match readRecordsF m.asBytes questionReadF fuel (headerQuestionCount m.buf) HEADER_SIZE with
  | none => none
  | some (false, _) => none
  | some (true, i) => some i

/-- `Message::answers_end`: `questions_end`, then skip `answer_count`
answer records, asserting each read succeeds. -/
def answersEndF (m : Msg) (fuel : Nat) : Option Nat :=
  match questionsEndF m fuel with
  | none => none
  | some qe =>
    match readRecordsF m.asBytes answerReadF fuel (headerAnswerCount m.buf) qe with
    | none => none
    | some (false, _) => none
    | some (true, i) => some i

/-- The literal-emission loop of `Message::add_name`: split the name at
`(nbuf, nstart)` into its first label and rest, insert the label's
length byte and bytes, then either try a pointer for the rest (querying
the questions of the message as updated so far) or, when no labels
remain, insert the terminating zero byte. -/
def literalLoopF (nbuf : List Nat) (fuel : Nat) : Nat → Msg → Nat → Nat → Option (Msg × Nat)
  | 0, _, _, _ => none
  | lf + 1, m, i, nstart =>
    match labelsNextF nbuf fuel nstart with
    | none => none
    | some none => none
    | some (some (s, pos')) =>
      match insertOpt m i [nbuf.getD s 0] with
      | none => none
      | some (m1, i1) =>
        match sliceOpt nbuf (s + 1) (nbuf.getD s 0) with
        | none => none
        | some lb =>
          match insertOpt m1 i1 lb with
          | none => none
          | some (m2, i2) =>
            match labelsNextF nbuf fuel pos' with
            | none => none
            | some none => insertOpt m2 i2 [0]
            | some (some (s2, _)) =>
              match addPointerF m2.asBytes nbuf s2 fuel (headerQuestionCount m2.buf) HEADER_SIZE with
              | none => none
              | some (some (p1, p2)) => insertOpt m2 i2 [p1, p2]
              | some none => literalLoopF nbuf fuel lf m2 i2 s2

/-- `Message::add_name`: first try a compression pointer against the
questions present in the message right now; otherwise emit the name
literally, retrying the pointer search at every remaining suffix. -/
def addNameF (m : Msg) (i : Nat) (nbuf : List Nat) (nstart fuel : Nat) : Option (Msg × Nat) :=
  match addPointerF m.asBytes nbuf nstart fuel (headerQuestionCount m.buf) HEADER_SIZE with
  | none => none
  | some (some (p1, p2)) => insertOpt m i [p1, p2]
  | some none => literalLoopF nbuf fuel fuel m i nstart

/-- Write a big-endian u16 into the header at byte positions `pos` and
`pos + 1` (the `set_question_count` / `set_answer_count` byte stores). -/
def setHeaderU16 (m : Msg) (pos v : Nat) : Msg :=
  { buf := (m.buf.set pos (v / 256 % 256)).set (pos + 1) (v % 256), len := m.len }

/-- `QueryKind::to_be_bytes` as a byte list. -/
def qkBytes (k : QueryKind) : List Nat := [k.toBeBytes.1, k.toBeBytes.2]

/-- `QueryClass::to_be_bytes` as a byte list. -/
def qcBytes (c : QueryClass) : List Nat := [c.toBeBytes.1, c.toBeBytes.2]

/-- `u32::to_be_bytes`. -/
def beBytesU32 (n : Nat) : List Nat :=
  [n / 16777216 % 256, n / 65536 % 256, n / 256 % 256, n % 256]

/-- `u16::to_be_bytes` (used for the RDATA length prefix,
`data.len() as u16`). -/
def beBytesU16 (n : Nat) : List Nat := [n / 256 % 256, n % 256]

/-- `Message::add_question`: insert name, kind and class at
`questions_end`, then increment the header question count. -/
def addQuestionF (m : Msg) (nbuf : List Nat) (nstart : Nat) (k : QueryKind) (c : QueryClass)
    (fuel : Nat) : Option Msg :=
  match questionsEndF m fuel with
  | none => none
  | some i0 =>
    match addNameF m i0 nbuf nstart fuel with
    | none => none
    | some (m1, i1) =>
      match insertOpt m1 i1 (qkBytes k) with
      | none => none
      | some (m2, i2) =>
        match insertOpt m2 i2 (qcBytes c) with
        | none => none
        | some (m3, _) =>
          some (setHeaderU16 m3 4 ((headerQuestionCount m3.buf + 1) % 65536))

/-- `Message::add_answer`: insert name, kind, class, ttl and RDATA
(2-byte length prefix plus bytes) at `answers_end`, then increment the
header answer count. -/
def addAnswerF (m : Msg) (nbuf : List Nat) (nstart : Nat) (k : QueryKind) (c : QueryClass)
    (ttl : Nat) (rdata : List Nat) (fuel : Nat) : Option Msg :=
  match answersEndF m fuel with
  | none => none
  | some i0 =>
    match addNameF m i0 nbuf nstart fuel with
    | none => none
    | some (m1, i1) =>
      match insertOpt m1 i1 (qkBytes k) with
      | none => none
      | some (m2, i2) =>
        match insertOpt m2 i2 (qcBytes c) with
        | none => none
        | some (m3, i3) =>
          match insertOpt m3 i3 (beBytesU32 ttl) with
          | none => none
          | some (m4, i4) =>
            match insertOpt m4 i4 (beBytesU16 rdata.length) with
            | none => none
            | some (m5, i5) =>
              match insertOpt m5 i5 rdata with
              | none => none
              | some (m6, _) =>
                some (setHeaderU16 m6 6 ((headerAnswerCount m6.buf + 1) % 65536))

/-- The result of appending `bs` at the logical end of a message (what
`insert` does when called with the cursor at `len`). -/
def appendEnd (m : Msg) (bs : List Nat) : Msg :=
  { buf := m.buf.take m.len ++ bs ++ m.buf.drop (m.len + bs.length), len := m.len + bs.length }

/-- An all-zero 40-byte builder message (header zeroed, logical length
12), used to show that answers are never compression candidates. -/
def demo0 : Msg := { buf := List.replicate 40 0, len := 12 }

/-- The wire name `[1]a[0]` used in the prior-answer demonstration. -/
def demoName : List Nat := [1, 97, 0]

/-- The full encoding of the demonstration answer record: literal name,
kind A, class IN, ttl 7, 1-byte RDATA `[9]`. -/
def demoRec : List Nat := [1, 97, 0, 0, 1, 0, 1, 0, 0, 0, 7, 0, 1, 9]

/-! ## Theorems -/

theorem readRecF_cycBuf_aux (f : Nat) :
    readRecF cycBuf f 0 4 0 0 0 = none ∧ readRecF cycBuf f 2 4 2 0 0 = none := by
  induction f with
  | zero => exact ⟨rfl, rfl⟩
  | succ f ih =>
    have h0 : LabelType.read cycBuf 0 = some (LabelType.Pointer 2, 2) := by decide
    have h2 : LabelType.read cycBuf 2 = some (LabelType.Pointer 0, 4) := by decide
    constructor
    · simp [readRecF, h0, ih.2]
    · simp [readRecF, h2, ih.1]

/-- Claim C1: the whole-name decoder `Name::read` is claimed to terminate
on every buffer and start offset.  It does not: on the buffer
`[0xC0, 0x02, 0xC0, 0x00, 0xC0, 0x00]` starting at offset 4, the decode
jumps 4 → 0 → 2 → 0 → 2 → … forever, because the pointer guard only
rejects a target equal to the global start or inside the current record,
and the iteration counter is never incremented on a pointer jump.  In
the fuel embedding, no amount of fuel produces a result. -/
theorem nameRead_diverges_on_cycle : ∀ fuel, nameReadF cycBuf fuel 4 = none := by
  intro fuel
  cases fuel with
  | zero => rfl
  | succ f =>
    have h4 : LabelType.read cycBuf 4 = some (LabelType.Pointer 0, 6) := by decide
    simp [nameReadF, readRecF, h4, (readRecF_cycBuf_aux f).1]

/-- Claim C2: a successful decode is claimed to follow only pointers whose
target is strictly below every offset already visited.  Counterexample:
on `[0xC0, 0x03, 0x00, 0x00]` starting at offset 0, the decoder visits
offsets 0 and 1 (the pointer bytes), then follows the pointer FORWARD to
offset 3 (not strictly less than the visited offsets) and succeeds,
because the code only rejects `ptr == global_start` or
`rec_start <= ptr < i`. -/
theorem nameRead_accepts_forward_pointer : nameReadF fwdBuf 2 0 = some (true, 2) := by decide

/-- Claim C8: every single call of the label iterator `Labels::next` is
claimed to terminate.  It does not: on the self-pointer buffer
`[0xC0, 0x00]` at offset 0 the iterator follows the pointer back to
offset 0 forever; in the fuel embedding no fuel suffices. -/
theorem labelsNext_diverges_on_self_pointer : ∀ fuel, labelsNextF [192, 0] fuel 0 = none := by
  intro fuel
  induction fuel with
  | zero => rfl
  | succ f ih =>
    have h : LabelType.read [192, 0] 0 = some (LabelType.Pointer 0, 2) := by decide
    simp [labelsNextF, h, ih]

theorem responseCode_fromU16_of_unassigned (n : Nat)
    (h : ¬ (n ≤ 10 ∨ (16 ≤ n ∧ n ≤ 21))) :
    ResponseCode.fromU16 n = ResponseCode.Reserved n := by
  unfold ResponseCode.fromU16
  repeat rw [if_neg (by omega)]

theorem responseCode_toU16_fromU16 (n : Nat) :
    ResponseCode.toU16 (ResponseCode.fromU16 n) = n := by
  by_cases h : n < 22
  · interval_cases n <;> decide
  · rw [responseCode_fromU16_of_unassigned n (by omega)]
    rfl

theorem responseCode_assigned_named (n : Nat) (h : n ≤ 10 ∨ (16 ≤ n ∧ n ≤ 21)) :
    (ResponseCode.fromU16 n).isReserved = false := by
  have h22 : n < 22 := by omega
  interval_cases n <;> first | decide | (exfalso; omega)

/-- Claim C9: for every 16-bit value `n`, `u16 → ResponseCode → u16` is
the identity; assigned codes 0–10 and 16–21 decode to named (non-Reserved)
variants and every other value decodes to `Reserved n`. -/
theorem responseCode_roundtrip (n : Nat) (_h16 : n < 65536) :
    ResponseCode.toU16 (ResponseCode.fromU16 n) = n ∧
    (¬ (n ≤ 10 ∨ (16 ≤ n ∧ n ≤ 21)) → ResponseCode.fromU16 n = ResponseCode.Reserved n) ∧
    ((n ≤ 10 ∨ (16 ≤ n ∧ n ≤ 21)) → (ResponseCode.fromU16 n).isReserved = false) :=
  ⟨responseCode_toU16_fromU16 n,
    fun h => responseCode_fromU16_of_unassigned n h,
    fun h => responseCode_assigned_named n h⟩

/-- Witness for C9 at the unassigned code 500: it round-trips through
`Reserved 500`. -/
theorem responseCode_roundtrip_witness :
    500 < 65536 ∧ ResponseCode.toU16 (ResponseCode.fromU16 500) = 500 ∧
      ResponseCode.fromU16 500 = ResponseCode.Reserved 500 :=
  ⟨by decide, (responseCode_roundtrip 500 (by decide)).1,
    (responseCode_roundtrip 500 (by decide)).2.1 (by decide)⟩

/-- Claim C10: decode–encode is claimed to round-trip every assigned
QueryKind code, including 253 (MAILB) and 254 (MAILA).  It does not:
`From<u16>` maps `253 => MAILA` and `254 => MAILB`, the reverse of the
enum's own declared discriminants `MAILB = 253, MAILA = 254`, so 253
re-encodes as 254 and 254 as 253, while all other assigned codes
round-trip. -/
theorem queryKind_mail_codes_swapped :
    QueryKind.fromU16 253 = QueryKind.MAILA ∧
    QueryKind.fromU16 254 = QueryKind.MAILB ∧
    QueryKind.toBeBytes (QueryKind.fromU16 253) = (0, 254) ∧
    QueryKind.toBeBytes (QueryKind.fromU16 254) = (0, 253) ∧
    ((([1, 2, 3, 4, 5, 6, 7, 8, 9, 10, 11, 12, 13, 14, 15, 16, 252, 255] : List Nat).all
      fun n => QueryKind.toBeBytes (QueryKind.fromU16 n) = (n / 256 % 256, n % 256)) = true) := by
  decide

/-- Bitmask facts used to characterise `LabelType::read` on byte values:
for a byte, having both top bits set is the same as being at least 192,
and the low six bits are the value modulo 64. -/
theorem byte_mask_facts : ∀ b : Nat, b < 256 →
    ((b &&& 192 = 192) ↔ 192 ≤ b) ∧ b &&& 63 = b % 64 := by decide

/-- Claim C5 counterexample: a first byte with exactly one of the two top
bits set (here 0x40 and 0xA0) is claimed to make the label read fail, but
`LabelType::read` happily decodes it as a `Part` whose length is the low
six bits. -/
theorem labelTypeRead_reserved_bits_succeed :
    LabelType.read [64] 0 = some (LabelType.Part 0, 1) ∧
    LabelType.read [160] 0 = some (LabelType.Part 32, 33) := by decide

/-- Claim C5 (amended): when reading one label at an in-bounds offset, a
first byte with both top bits set is decoded as a 14-bit pointer, failing
only if its second byte is missing; every other first byte — including
the reserved combinations with exactly one top bit set — is decoded as a
`Part` whose length is the byte's low six bits (0–63). -/
theorem labelTypeRead_cases (buf : List Nat) (i b : Nat)
    (hb : buf.get? i = some b) (h256 : b < 256) :
    (192 ≤ b → LabelType.read buf i =
      (match buf.get? (i + 1) with
       | some p => some (LabelType.Pointer ((b - 192) * 256 + p), i + 2)
       | none => none)) ∧
    (b < 192 → LabelType.read buf i = some (LabelType.Part (b % 64), i + 1 + b % 64)) := by
  have hf := byte_mask_facts b h256
  constructor
  · intro hge
    have h1 : b &&& 192 = 192 := hf.1.mpr hge
    have h2 : b &&& 63 = b - 192 := by
      rw [hf.2]; omega
    unfold LabelType.read PTR_MASK LEN_MASK
    rw [hb]
    dsimp only
    rw [if_pos h1, h2]
  · intro hlt
    have h1 : ¬ (b &&& 192 = 192) := by
      intro hc
      have := hf.1.mp hc
      omega
    unfold LabelType.read PTR_MASK LEN_MASK
    rw [hb]
    dsimp only
    rw [if_neg h1, hf.2]

/-- Witness for C5 at the pointer byte 0xC5 with second byte 7: decodes
to the 14-bit pointer 5·256+7 = 1287. -/
theorem labelTypeRead_cases_witness :
    197 < 256 ∧ LabelType.read [197, 7] 0 = some (LabelType.Pointer 1287, 2) :=
  ⟨by decide, by simpa using (labelTypeRead_cases [197, 7] 0 197 rfl (by decide)).1 (by decide)⟩

/-- Claim C6 counterexample: name decoding is claimed to distinguish its
failure causes as distinct error kinds, but `Name::read` returns a bare
`bool`: a rejected pointer (self-pointer `[0xC0, 0x00]`) and a truncated
label (`[0x01]`) produce the identical result `false` — there is no
`Pointer` versus `MessageTooShort` distinction in the return value. -/
theorem nameRead_failures_indistinguishable :
    nameReadF [192, 0] 1 0 = some (false, 2) ∧ nameReadF [1] 2 0 = some (false, 2) := by decide

/-- Claim C6 (amended): `Name::read` reports every failure as the single
boolean `false`: an accumulated label length over 255 bytes, a rejected
compression pointer, and a label byte past the end of the buffer all
yield `false`, with no distinguishing error kind. -/
theorem nameRead_failure_is_plain_false :
    (nameReadF longNameBuf 6 0).map Prod.fst = some false ∧
    (nameReadF [192, 0] 1 0).map Prod.fst = some false ∧
    (nameReadF [1] 2 0).map Prod.fst = some false := by decide

theorem get?_some_lt {buf : List Nat} {i b : Nat} (h : buf.get? i = some b) : i < buf.length := by
  by_contra hc
  rw [List.get?_eq_none.mpr (by omega)] at h
  exact Option.noConfusion h

theorem labelTypeRead_pointer_le {buf : List Nat} {i p j : Nat}
    (h : LabelType.read buf i = some (LabelType.Pointer p, j)) : j ≤ buf.length := by
  unfold LabelType.read at h
  cases hg : buf.get? i with
  | none => rw [hg] at h; exact Option.noConfusion h
  | some b =>
    rw [hg] at h
    dsimp only at h
    split at h
    · cases hg2 : buf.get? (i + 1) with
      | none => rw [hg2] at h; exact Option.noConfusion h
      | some p2 =>
        rw [hg2] at h
        have hlt := get?_some_lt hg2
        injection h with h'
        injection h' with h1 h2
        omega
    · injection h with h'
      injection h' with h1 h2
      exact LabelType.noConfusion h1

theorem labelTypeRead_part_le {buf : List Nat} {i pl j : Nat}
    (h : LabelType.read buf i = some (LabelType.Part pl, j)) : j = i + 1 + pl ∧ i < buf.length := by
  unfold LabelType.read at h
  cases hg : buf.get? i with
  | none => rw [hg] at h; exact Option.noConfusion h
  | some b =>
    rw [hg] at h
    dsimp only at h
    split at h
    · cases hg2 : buf.get? (i + 1) with
      | none => rw [hg2] at h; exact Option.noConfusion h
      | some p2 =>
        rw [hg2] at h
        injection h with h'
        injection h' with h1 h2
        exact LabelType.noConfusion h1
    · injection h with h'
      injection h' with h1 h2
      injection h1 with h1
      exact ⟨by omega, get?_some_lt hg⟩

theorem readRecF_true_le (buf : List Nat) :
    ∀ f i gs rs iter len j, readRecF buf f i gs rs iter len = some (true, j) → j ≤ buf.length := by
  intro f
  induction f with
  | zero => intro i gs rs iter len j h; exact Option.noConfusion h
  | succ f ih =>
    intro i gs rs iter len j h
    unfold readRecF at h
    cases hr : LabelType.read buf i with
    | none => rw [hr] at h; injection h with h'; injection h' with h1 _; exact Bool.noConfusion h1
    | some u =>
      rw [hr] at h
      obtain ⟨t, j0⟩ := u
      cases t with
      | Pointer ptr =>
        dsimp only at h
        split at h
        · injection h with h'; injection h' with h1 _; exact Bool.noConfusion h1
        · cases hrec : readRecF buf f ptr gs ptr iter len with
          | none => rw [hrec] at h; exact Option.noConfusion h
          | some p =>
            rw [hrec] at h
            injection h with h'
            injection h' with h1 h2
            subst h2
            exact labelTypeRead_pointer_le hr
      | Part pl =>
        dsimp only at h
        split at h
        · injection h with h'
          injection h' with h1 h2
          subst h2
          obtain ⟨he, hlt⟩ := labelTypeRead_part_le hr
          omega
        · split at h
          · split at h
            · exact ih _ _ _ _ _ _ h
            · injection h with h'; injection h' with h1 _; exact Bool.noConfusion h1
          · injection h with h'; injection h' with h1 _; exact Bool.noConfusion h1

theorem questionReadF_true_le (buf : List Nat) (f i j : Nat)
    (h : questionReadF buf f i = some (true, j)) : j ≤ buf.length := by
  unfold questionReadF at h
  cases hn : nameReadF buf f i with
  | none => rw [hn] at h; exact Option.noConfusion h
  | some p =>
    rw [hn] at h
    obtain ⟨ok, j0⟩ := p
    cases ok with
    | false => injection h with h'; injection h' with h1 _; exact Bool.noConfusion h1
    | true =>
      dsimp only at h
      split at h
      · injection h with h'; injection h' with _ h2; omega
      · injection h with h'; injection h' with h1 _; exact Bool.noConfusion h1

theorem answerReadF_true_le (buf : List Nat) (f i j : Nat)
    (h : answerReadF buf f i = some (true, j)) : j ≤ buf.length := by
  unfold answerReadF at h
  cases hn : nameReadF buf f i with
  | none => rw [hn] at h; exact Option.noConfusion h
  | some p =>
    rw [hn] at h
    obtain ⟨ok, j0⟩ := p
    cases ok with
    | false => injection h with h'; injection h' with h1 _; exact Bool.noConfusion h1
    | true =>
      dsimp only at h
      split at h
      · split at h
        · split at h
          · split at h
            · split at h
              · injection h with h'; injection h' with _ h2; omega
              · injection h with h'; injection h' with h1 _; exact Bool.noConfusion h1
            · injection h with h'; injection h' with h1 _; exact Bool.noConfusion h1
          · injection h with h'; injection h' with h1 _; exact Bool.noConfusion h1
        · injection h with h'; injection h' with h1 _; exact Bool.noConfusion h1
      · injection h with h'; injection h' with h1 _; exact Bool.noConfusion h1

theorem readRecordsF_true_le (buf : List Nat)
    (reader : List Nat → Nat → Nat → Option (Bool × Nat))
    (hr : ∀ f i j, reader buf f i = some (true, j) → j ≤ buf.length) (fuel : Nat) :
    ∀ n i j, i ≤ buf.length → readRecordsF buf reader fuel n i = some (true, j) →
      j ≤ buf.length := by
  intro n
  induction n with
  | zero =>
    intro i j hi h
    injection h with h'
    injection h' with _ h2
    omega
  | succ n ih =>
    intro i j hi h
    unfold readRecordsF at h
    cases hstep : reader buf fuel i with
    | none => rw [hstep] at h; exact Option.noConfusion h
    | some p =>
      rw [hstep] at h
      obtain ⟨ok, j0⟩ := p
      cases ok with
      | false => injection h with h'; injection h' with h1 _; exact Bool.noConfusion h1
      | true => exact ih j0 j (hr fuel i j0 hstep) h

/-- Claim C4: whenever `Message::parse` succeeds, the resulting message
keeps the input buffer byte-for-byte unchanged, its logical length is at
most the buffer length, and `as_bytes()` is exactly the logical-length
prefix of the original input (never the whole backing capacity). -/
theorem parse_as_bytes_roundtrip (fuel : Nat) (buffer : List Nat) (m : Msg)
    (h : parseF fuel buffer = some (some m)) :
    m.buf = buffer ∧ m.len ≤ buffer.length ∧ m.asBytes = buffer.take m.len := by
  unfold parseF at h
  split at h
  · injection h with h'; exact Option.noConfusion h'
  · split at h
    · injection h with h'; exact Option.noConfusion h'
    · cases hq : readRecordsF buffer questionReadF fuel (headerQuestionCount buffer) HEADER_SIZE with
      | none => rw [hq] at h; exact Option.noConfusion h
      | some p =>
        rw [hq] at h
        obtain ⟨ok1, i1⟩ := p
        cases ok1 with
        | false => injection h with h'; exact Option.noConfusion h'
        | true =>
          dsimp only at h
          cases ha : readRecordsF buffer answerReadF fuel (headerAnswerCount buffer) i1 with
          | none => rw [ha] at h; exact Option.noConfusion h
          | some q =>
            rw [ha] at h
            obtain ⟨ok2, i2⟩ := q
            cases ok2 with
            | false => injection h with h'; exact Option.noConfusion h'
            | true =>
              injection h with h'
              injection h' with h''
              have h12 : HEADER_SIZE ≤ buffer.length := by omega
              have hi1 : i1 ≤ buffer.length :=
                readRecordsF_true_le buffer questionReadF
                  (questionReadF_true_le buffer) fuel _ _ _ h12 hq
              have hi2 : i2 ≤ buffer.length :=
                readRecordsF_true_le buffer answerReadF
                  (answerReadF_true_le buffer) fuel _ _ _ hi1 ha
              subst h''
              exact ⟨rfl, hi2, rfl⟩

/-- Witness for C4: parsing the crate's 48-byte captive.apple.com test
buffer succeeds with logical length 35, and `as_bytes` is the 35-byte
prefix of the input. -/
theorem parse_as_bytes_roundtrip_witness :
    parseF 10 capBuf = some (some ⟨capBuf, 35⟩) ∧
    Msg.asBytes ⟨capBuf, 35⟩ = capBuf.take 35 ∧ (35 : Nat) ≤ capBuf.length :=
  ⟨by decide,
    (parse_as_bytes_roundtrip 10 capBuf ⟨capBuf, 35⟩ (by decide)).2.2,
    (parse_as_bytes_roundtrip 10 capBuf ⟨capBuf, 35⟩ (by decide)).2.1⟩

theorem eqICList_nil_nil : eqICList [] [] = true := rfl

theorem eqICList_nil_cons (a : Nat) (l : List Nat) : eqICList [] (a :: l) = false := rfl

theorem eqICList_cons_nil (a : Nat) (l : List Nat) : eqICList (a :: l) [] = false := rfl

theorem eqICList_cons_cons (a b : Nat) (l1 l2 : List Nat) :
    eqICList (a :: l1) (b :: l2) = (eqIC a b && eqICList l1 l2) := rfl

theorem sliceOpt_length {buf : List Nat} {a n : Nat} {l : List Nat}
    (h : sliceOpt buf a n = some l) : l.length = n ∧ a + n ≤ buf.length := by
  unfold sliceOpt at h
  split at h
  · injection h with h'
    subst h'
    refine ⟨?_, by omega⟩
    rw [List.length_take, List.length_drop]
    omega
  · exact Option.noConfusion h

theorem eqICList_append (l1 l2 xs : List Nat) :
    eqICList (l1 ++ l2) xs =
      (eqICList l1 (xs.take l1.length) && eqICList l2 (xs.drop l1.length)) := by
  induction l1 generalizing xs with
  | nil => simp [eqICList_nil_nil]
  | cons a l1 ih =>
    cases xs with
    | nil => simp [eqICList_cons_nil]
    | cons x xs =>
      simp only [List.cons_append, eqICList_cons_cons, List.length_cons,
        List.take_succ_cons, List.drop_succ_cons, ih xs, Bool.and_assoc]

theorem eqICList_length_false : ∀ {l1 xs : List Nat},
    l1.length ≠ xs.length → eqICList l1 xs = false := by
  intro l1
  induction l1 with
  | nil =>
    intro xs h
    cases xs with
    | nil => simp at h
    | cons x xs => rfl
  | cons a l1 ih =>
    intro xs h
    cases xs with
    | nil => rfl
    | cons x xs =>
      have hne : l1.length ≠ xs.length := by
        simp only [List.length_cons] at h
        omega
      rw [eqICList_cons_cons, ih hne, Bool.and_false]

theorem eqICList_nil_eq (other : List Nat) (oi : Nat) (hoi : oi ≤ other.length) :
    eqICList [] (other.drop oi) = decide (oi = other.length) := by
  cases hd : other.drop oi with
  | nil =>
    have hlen := congrArg List.length hd
    simp only [List.length_drop, List.length_nil] at hlen
    have heq : oi = other.length := by omega
    simp [heq, eqICList_nil_nil]
  | cons c rest =>
    have hlen := congrArg List.length hd
    simp only [List.length_drop, List.length_cons] at hlen
    have hne : oi ≠ other.length := by omega
    simp [eqICList_nil_cons, hne]

theorem eqIC_dot (c : Nat) : eqIC 46 c = decide (c = 46) := by
  unfold eqIC toAsciiLower
  split_ifs <;> simp only [decide_eq_decide] <;> omega

theorem nameEqF_matches {buf : List Nat} {start : Nat} {ls : List (List Nat)}
    (h : NameLabels buf start ls) :
    ∀ (other : List Nat) (oi : Nat), oi ≤ other.length →
      ∃ f0, ∀ f, f0 ≤ f → nameEqF buf other f start oi =
        some (eqICList (if oi = 0 then dotted ls else dottedTail ls) (other.drop oi)) := by
  induction h with
  | nil hr =>
    intro other oi hoi
    refine ⟨1, fun f hf => ?_⟩
    obtain ⟨f', rfl⟩ : ∃ f', f = f' + 1 := ⟨f - 1, by omega⟩
    simp only [nameEqF]
    rw [hr]
    dsimp only
    rw [if_pos rfl]
    congr 1
    have hpat : (if oi = 0 then dotted ([] : List (List Nat)) else dottedTail []) = [] := by
      split <;> rfl
    rw [hpat, eqICList_nil_eq other oi hoi]
  | ptr hr hn ih =>
    intro other oi hoi
    obtain ⟨f0, hf0⟩ := ih other oi hoi
    refine ⟨f0 + 1, fun f hf => ?_⟩
    obtain ⟨f', rfl⟩ : ∃ f', f = f' + 1 := ⟨f - 1, by omega⟩
    simp only [nameEqF]
    rw [hr]
    dsimp only
    exact hf0 f' (by omega)
  | cons hr hne hgetD hslice hn ih =>
    rename_i i len j l ls'
    intro other oi hoi
    obtain ⟨hj, hilt⟩ := labelTypeRead_part_le hr
    obtain ⟨hlen, hbnd⟩ := sliceOpt_length hslice
    have hs : j - len - 1 = i := by omega
    by_cases hoi0 : oi = 0
    · by_cases hb : oi + len ≤ other.length
      · obtain ⟨f0, hf0⟩ := ih other (oi + len) (by omega)
        refine ⟨f0 + 1, fun f hf => ?_⟩
        obtain ⟨f', rfl⟩ : ∃ f', f = f' + 1 := ⟨f - 1, by omega⟩
        simp only [nameEqF]
        rw [hr]
        dsimp only
        rw [if_neg hne, if_neg (fun hcon => hcon.1 hoi0), hs, hgetD, if_pos hoi0, if_pos hb,
          hslice]
        dsimp only
        cases hcmp : eqICList l ((other.drop oi).take len) with
        | true =>
          rw [if_pos rfl, hf0 f' (by omega)]
          congr 1
          rw [if_neg (show ¬ (oi + len = 0) by omega), if_pos hoi0]
          simp only [dotted]
          rw [eqICList_append, hlen, hcmp, List.drop_drop]
          simp
        | false =>
          rw [if_neg Bool.false_ne_true]
          congr 1
          rw [if_pos hoi0]
          simp only [dotted]
          rw [eqICList_append, hlen, hcmp]
          simp
      · refine ⟨1, fun f hf => ?_⟩
        obtain ⟨f', rfl⟩ : ∃ f', f = f' + 1 := ⟨f - 1, by omega⟩
        simp only [nameEqF]
        rw [hr]
        dsimp only
        rw [if_neg hne, if_neg (fun hcon => hcon.1 hoi0), hs, hgetD, if_pos hoi0, if_neg hb]
        congr 1
        have hfalse : eqICList l ((other.drop oi).take len) = false :=
          eqICList_length_false (by rw [hlen, List.length_take, List.length_drop]; omega)
        rw [if_pos hoi0]
        simp only [dotted]
        rw [eqICList_append, hlen, hfalse]
        simp
    · cases hg : other.get? oi with
      | none =>
        refine ⟨1, fun f hf => ?_⟩
        obtain ⟨f', rfl⟩ : ∃ f', f = f' + 1 := ⟨f - 1, by omega⟩
        simp only [nameEqF]
        rw [hr]
        dsimp only
        rw [if_neg hne, if_pos ⟨hoi0, by rw [hg]; exact fun hc => Option.noConfusion hc⟩]
        congr 1
        have hlen2 : other.length ≤ oi := List.get?_eq_none.mp hg
        rw [List.drop_eq_nil_of_le hlen2, if_neg hoi0]
        simp only [dottedTail]
        rw [eqICList_cons_nil]
      | some c =>
        obtain ⟨hlt, hval⟩ := List.get?_eq_some.mp hg
        have hdrop : other.drop oi = c :: other.drop (oi + 1) := by
          have h1 := List.drop_eq_getElem_cons hlt
          have h2 : other[oi] = c := by
            have h3 := hg
            rw [List.get?_eq_getElem?, List.getElem?_eq_getElem hlt] at h3
            injection h3
          rw [h2] at h1
          exact h1
        by_cases hc46 : c = 46
        · subst hc46
          by_cases hb : oi + 1 + len ≤ other.length
          · obtain ⟨f0, hf0⟩ := ih other (oi + 1 + len) (by omega)
            refine ⟨f0 + 1, fun f hf => ?_⟩
            obtain ⟨f', rfl⟩ : ∃ f', f = f' + 1 := ⟨f - 1, by omega⟩
            simp only [nameEqF]
            rw [hr]
            dsimp only
            rw [if_neg hne,
              if_neg (show ¬ (oi ≠ 0 ∧ other.get? oi ≠ some 46) from
                fun hcon => hcon.2 (by rw [hg])),
              hs, hgetD, if_neg hoi0, if_pos hb, hslice]
            dsimp only
            cases hcmp : eqICList l ((other.drop (oi + 1)).take len) with
            | true =>
              rw [if_pos rfl, hf0 f' (by omega)]
              congr 1
              rw [if_neg (show ¬ (oi + 1 + len = 0) by omega), if_neg hoi0]
              simp only [dottedTail]
              rw [hdrop, eqICList_cons_cons, eqICList_append, hlen, hcmp, List.drop_drop]
              simp [eqIC]
            | false =>
              rw [if_neg Bool.false_ne_true]
              congr 1
              rw [if_neg hoi0]
              simp only [dottedTail]
              rw [hdrop, eqICList_cons_cons, eqICList_append, hlen, hcmp]
              simp
          · refine ⟨1, fun f hf => ?_⟩
            obtain ⟨f', rfl⟩ : ∃ f', f = f' + 1 := ⟨f - 1, by omega⟩
            simp only [nameEqF]
            rw [hr]
            dsimp only
            rw [if_neg hne,
              if_neg (show ¬ (oi ≠ 0 ∧ other.get? oi ≠ some 46) from
                fun hcon => hcon.2 (by rw [hg])),
              hs, hgetD, if_neg hoi0, if_neg hb]
            congr 1
            have hfalse : eqICList l ((other.drop (oi + 1)).take len) = false :=
              eqICList_length_false (by rw [hlen, List.length_take, List.length_drop]; omega)
            rw [if_neg hoi0]
            simp only [dottedTail]
            rw [hdrop, eqICList_cons_cons, eqICList_append, hlen, hfalse]
            simp
        · refine ⟨1, fun f hf => ?_⟩
          obtain ⟨f', rfl⟩ : ∃ f', f = f' + 1 := ⟨f - 1, by omega⟩
          simp only [nameEqF]
          rw [hr]
          dsimp only
          rw [if_neg hne,
            if_pos ⟨hoi0, by rw [hg]; intro hcon; injection hcon with hv; exact hc46 hv⟩]
          congr 1
          rw [if_neg hoi0]
          simp only [dottedTail]
          rw [hdrop, eqICList_cons_cons,
            show eqIC 46 c = false from by rw [eqIC_dot]; simp [hc46]]
          simp

theorem getD_of_get? {buf : List Nat} {i b : Nat} (h : buf.get? i = some b) :
    buf.getD i 0 = b := by
  rw [List.getD_eq_getElem?_getD, ← List.get?_eq_getElem?, h]
  rfl

theorem get?_append_mid (pre rest : List Nat) (b : Nat) :
    (pre ++ (b :: rest)).get? pre.length = some b := by
  rw [List.get?_append_right (le_refl _)]
  simp

theorem sliceOpt_append_mid (pre mid post : List Nat) :
    sliceOpt (pre ++ (mid ++ post)) pre.length mid.length = some mid := by
  unfold sliceOpt
  rw [if_pos (by simp only [List.length_append]; omega)]
  rw [List.drop_left, List.take_left]

theorem wire_cons (l : List Nat) (ls : List (List Nat)) :
    wire (l :: ls) = (l.length :: l) ++ wire ls := rfl

theorem labelsTotal_cons (l : List Nat) (ls : List (List Nat)) :
    labelsTotal (l :: ls) = l.length + labelsTotal ls := by
  simp [labelsTotal]

theorem wire_length (ls : List (List Nat)) :
    (wire ls).length = labelsTotal ls + ls.length + 1 := by
  induction ls with
  | nil => rfl
  | cons l ls ih =>
    rw [wire_cons, List.length_append, List.length_cons, ih, labelsTotal_cons,
      List.length_cons]
    omega

theorem length_le_labelsTotal : ∀ {ls : List (List Nat)},
    (∀ l ∈ ls, 1 ≤ l.length) → ls.length ≤ labelsTotal ls := by
  intro ls
  induction ls with
  | nil => intro _; simp [labelsTotal]
  | cons l t ih =>
    intro h
    rw [labelsTotal_cons, List.length_cons]
    have h1 := h l (by simp)
    have h2 := ih (fun l' hl' => h l' (by simp [hl']))
    omega

theorem wireAt_of_append : ∀ (ls : List (List Nat)) (pre post : List Nat),
    WireAt (pre ++ (wire ls ++ post)) pre.length ls := by
  intro ls
  induction ls with
  | nil =>
    intro pre post
    simp only [WireAt, wire]
    exact get?_append_mid pre post 0
  | cons l ls ih =>
    intro pre post
    refine ⟨?_, ?_, ?_⟩
    · have hre : pre ++ (wire (l :: ls) ++ post) =
          pre ++ (l.length :: (l ++ (wire ls ++ post))) := by
        simp [wire_cons, List.append_assoc]
      rw [hre]
      exact get?_append_mid _ _ _
    · have hre : pre ++ (wire (l :: ls) ++ post) =
          (pre ++ [l.length]) ++ (l ++ (wire ls ++ post)) := by
        simp [wire_cons, List.append_assoc]
      have hidx : pre.length + 1 = (pre ++ [l.length]).length := by simp
      rw [hre, hidx]
      exact sliceOpt_append_mid _ _ _
    · have hre : pre ++ (wire (l :: ls) ++ post) =
          (pre ++ (l.length :: l)) ++ (wire ls ++ post) := by
        simp [wire_cons, List.append_assoc]
      have hidx : pre.length + 1 + l.length = (pre ++ (l.length :: l)).length := by
        simp
        omega
      rw [hre, hidx]
      exact ih _ _

theorem labelTypeRead_of_len_byte {buf : List Nat} {i b : Nat}
    (hg : buf.get? i = some b) (hb : b ≤ 63) :
    LabelType.read buf i = some (LabelType.Part b, i + 1 + b) := by
  have hf := byte_mask_facts b (by omega)
  have h1 : ¬ (b &&& 192 = 192) := by
    rw [hf.1]
    omega
  have h2 : b &&& 63 = b := by
    rw [hf.2]
    omega
  unfold LabelType.read PTR_MASK LEN_MASK
  rw [hg]
  dsimp only
  rw [if_neg h1, h2]

theorem readRecF_wireAt :
    ∀ (ls : List (List Nat)) (buf : List Nat) (i gs rs iter len f : Nat),
      WireAt buf i ls →
      (∀ l ∈ ls, 1 ≤ l.length ∧ l.length ≤ 63) →
      iter + ls.length ≤ 255 → len + labelsTotal ls ≤ 255 →
      ls.length + 1 ≤ f →
      readRecF buf f i gs rs iter len = some (true, i + (wire ls).length) := by
  intro ls
  induction ls with
  | nil =>
    intro buf i gs rs iter len f hW _ _ _ hf
    obtain ⟨f', rfl⟩ : ∃ f', f = f' + 1 := ⟨f - 1, by omega⟩
    have hg : buf.get? i = some 0 := hW
    simp only [readRecF]
    rw [labelTypeRead_of_len_byte hg (by omega)]
    dsimp only
    rw [if_pos rfl]
    simp [wire]
  | cons l ls ih =>
    intro buf i gs rs iter len f hW hwf hiter hlen hf
    obtain ⟨f', rfl⟩ : ∃ f', f = f' + 1 := ⟨f - 1, by omega⟩
    obtain ⟨hg, hsl, hW'⟩ := hW
    have hl := hwf l (by simp)
    simp only [List.length_cons] at hiter hf
    have htot := labelsTotal_cons l ls
    simp only [readRecF]
    rw [labelTypeRead_of_len_byte hg (by omega)]
    dsimp only
    rw [if_neg (by omega : ¬ (l.length = 0)),
      if_pos (by omega : len + l.length ≤ 255),
      if_pos (by omega : iter + 1 ≤ 255),
      ih buf (i + 1 + l.length) gs rs (iter + 1) (len + l.length) f' hW'
        (fun l' hl' => hwf l' (by simp [hl'])) (by omega) (by omega) (by omega)]
    have heq : i + 1 + l.length + (wire ls).length = i + (wire (l :: ls)).length := by
      rw [wire_cons, List.length_append, List.length_cons]
      omega
    rw [heq]

theorem nameReadF_wireAt {buf : List Nat} {i : Nat} {ls : List (List Nat)} {f : Nat}
    (hW : WireAt buf i ls) (hwf : ∀ l ∈ ls, 1 ≤ l.length ∧ l.length ≤ 63)
    (htot : labelsTotal ls ≤ 255) (hf : ls.length + 1 ≤ f) :
    nameReadF buf f i = some (true, i + (wire ls).length) := by
  have hlen := length_le_labelsTotal (fun l hl => (hwf l hl).1)
  exact readRecF_wireAt ls buf i i i 0 0 f hW hwf (by omega) (by omega) hf

theorem questionReadF_wireAt {buf : List Nat} {i : Nat} {ls : List (List Nat)} {f : Nat}
    (hW : WireAt buf i ls) (hwf : ∀ l ∈ ls, 1 ≤ l.length ∧ l.length ≤ 63)
    (htot : labelsTotal ls ≤ 255) (hf : ls.length + 1 ≤ f)
    (hb : i + (wire ls).length + 4 ≤ buf.length) :
    questionReadF buf f i = some (true, i + (wire ls).length + 4) := by
  unfold questionReadF
  rw [nameReadF_wireAt hW hwf htot hf]
  dsimp only
  rw [if_pos hb]

theorem labelsNextF_at_label {buf : List Nat} {i b : Nat} {f : Nat}
    (hg : buf.get? i = some b) (hb1 : 1 ≤ b) (hb : b ≤ 63) (h1 : 1 ≤ f) :
    labelsNextF buf f i = some (some (i, i + 1 + b)) := by
  obtain ⟨f', rfl⟩ : ∃ f', f = f' + 1 := ⟨f - 1, by omega⟩
  simp only [labelsNextF]
  rw [labelTypeRead_of_len_byte hg hb]
  dsimp only
  rw [if_neg (by omega : ¬ (b = 0))]
  have heq : i + 1 + b - b - 1 = i := by omega
  rw [heq]

theorem labelsNextF_at_end {buf : List Nat} {i : Nat} {f : Nat}
    (hg : buf.get? i = some 0) (h1 : 1 ≤ f) :
    labelsNextF buf f i = some none := by
  obtain ⟨f', rfl⟩ : ∃ f', f = f' + 1 := ⟨f - 1, by omega⟩
  simp only [labelsNextF]
  rw [labelTypeRead_of_len_byte hg (by omega)]
  dsimp only
  rw [if_pos rfl]

theorem equalFromF_wireAt :
    ∀ (ls1 ls2 : List (List Nat)) (buf1 buf2 : List Nat) (p1 p2 f : Nat),
      WireAt buf1 p1 ls1 → WireAt buf2 p2 ls2 →
      (∀ l ∈ ls1, 1 ≤ l.length ∧ l.length ≤ 63) →
      (∀ l ∈ ls2, 1 ≤ l.length ∧ l.length ≤ 63) →
      ls1.length + 1 ≤ f →
      equalFromF buf1 buf2 f p1 p2 = some (labelsEqIC ls1 ls2) := by
  intro ls1
  induction ls1 with
  | nil =>
    intro ls2 buf1 buf2 p1 p2 f h1 h2 hw1 hw2 hf
    obtain ⟨f', rfl⟩ : ∃ f', f = f' + 1 := ⟨f - 1, by omega⟩
    simp only [equalFromF]
    rw [labelsNextF_at_end h1 (by omega)]
    cases ls2 with
    | nil =>
      rw [labelsNextF_at_end h2 (by omega)]
      rfl
    | cons l2 t2 =>
      obtain ⟨hg2, hsl2, hW2'⟩ := h2
      rw [labelsNextF_at_label hg2 (hw2 l2 (by simp)).1 (hw2 l2 (by simp)).2 (by omega)]
      rfl
  | cons l1 t1 ih =>
    intro ls2 buf1 buf2 p1 p2 f h1 h2 hw1 hw2 hf
    obtain ⟨f', rfl⟩ : ∃ f', f = f' + 1 := ⟨f - 1, by omega⟩
    obtain ⟨hg1, hsl1, hW1'⟩ := h1
    simp only [equalFromF]
    rw [labelsNextF_at_label hg1 (hw1 l1 (by simp)).1 (hw1 l1 (by simp)).2 (by omega)]
    cases ls2 with
    | nil =>
      rw [labelsNextF_at_end h2 (by omega)]
      rfl
    | cons l2 t2 =>
      obtain ⟨hg2, hsl2, hW2'⟩ := h2
      rw [labelsNextF_at_label hg2 (hw2 l2 (by simp)).1 (hw2 l2 (by simp)).2 (by omega)]
      dsimp only
      rw [getD_of_get? hg1, getD_of_get? hg2, hsl1, hsl2]
      dsimp only
      simp only [List.length_cons] at hf
      cases hcmp : eqICList l1 l2 with
      | true =>
        rw [if_pos rfl,
          ih t2 buf1 buf2 (p1 + 1 + l1.length) (p2 + 1 + l2.length) f' hW1' hW2'
            (fun l' hl' => hw1 l' (by simp [hl']))
            (fun l' hl' => hw2 l' (by simp [hl'])) (by omega)]
        congr 1
        simp [labelsEqIC, hcmp]
      | false =>
        rw [if_neg Bool.false_ne_true]
        congr 1
        simp [labelsEqIC, hcmp]

theorem createPointerF_hit {buf1 buf2 : List Nat} {p1 p2 : Nat}
    {ls1 ls2 : List (List Nat)} {f : Nat}
    (h1 : WireAt buf1 p1 ls1) (h2 : WireAt buf2 p2 ls2)
    (hw1 : ∀ l ∈ ls1, 1 ≤ l.length ∧ l.length ≤ 63)
    (hw2 : ∀ l ∈ ls2, 1 ≤ l.length ∧ l.length ≤ 63)
    (hne : ls1 ≠ []) (heq : labelsEqIC ls1 ls2 = true)
    (hf : ls1.length + 2 ≤ f) :
    createPointerF buf1 buf2 p2 f p1 = some (some (p1 / 256 % 256 ||| 192, p1 % 256)) := by
  obtain ⟨f', rfl⟩ : ∃ f', f = f' + 1 := ⟨f - 1, by omega⟩
  cases ls1 with
  | nil => exact absurd rfl hne
  | cons l1 t1 =>
    obtain ⟨hg1, hsl1, hW1'⟩ := h1
    simp only [List.length_cons] at hf
    simp only [createPointerF]
    rw [labelsNextF_at_label hg1 (hw1 l1 (by simp)).1 (hw1 l1 (by simp)).2 (by omega)]
    dsimp only
    rw [equalFromF_wireAt (l1 :: t1) ls2 buf1 buf2 p1 p2 (f' + 1) ⟨hg1, hsl1, hW1'⟩ h2 hw1 hw2
      (by simp only [List.length_cons]; omega)]
    rw [heq]

theorem insertOpt_end (m : Msg) (bs : List Nat) (hcap : m.len + bs.length ≤ m.buf.length) :
    insertOpt m m.len bs = some (appendEnd m bs, m.len + bs.length) := by
  unfold insertOpt appendEnd
  rw [if_pos ⟨le_refl _, hcap⟩]
  simp

theorem appendEnd_len (m : Msg) (bs : List Nat) :
    (appendEnd m bs).len = m.len + bs.length := rfl

theorem appendEnd_buf_length (m : Msg) (bs : List Nat)
    (h : m.len + bs.length ≤ m.buf.length) :
    (appendEnd m bs).buf.length = m.buf.length := by
  simp only [appendEnd, List.length_append, List.length_take, List.length_drop]
  omega

theorem appendEnd_asBytes (m : Msg) (bs : List Nat)
    (h : m.len + bs.length ≤ m.buf.length) :
    (appendEnd m bs).asBytes = m.asBytes ++ bs := by
  unfold appendEnd Msg.asBytes
  dsimp only
  rw [List.take_left' (by simp only [List.length_append, List.length_take]; omega)]

theorem appendEnd_appendEnd (m : Msg) (a b : List Nat)
    (h : m.len + a.length + b.length ≤ m.buf.length) :
    appendEnd (appendEnd m a) b = appendEnd m (a ++ b) := by
  unfold appendEnd
  dsimp only
  have hpre : (m.buf.take m.len ++ a).length = m.len + a.length := by
    simp only [List.length_append, List.length_take]
    omega
  congr 1
  · rw [List.take_left' hpre]
    have hd : m.len + a.length + b.length = (m.buf.take m.len ++ a).length + b.length := by
      omega
    rw [hd, List.drop_append, List.drop_drop]
    have he : m.len + a.length + b.length = m.len + (a ++ b).length := by
      simp only [List.length_append]
      omega
    rw [he]
    simp [List.append_assoc]
  · simp only [List.length_append]
    omega

theorem getD_take_lt (l : List Nat) (n t : Nat) (h : t < n) :
    (l.take n).getD t 0 = l.getD t 0 := by
  rw [List.getD_eq_getElem?_getD, List.getD_eq_getElem?_getD, ← List.get?_eq_getElem?,
    ← List.get?_eq_getElem?, List.get?_take h]

theorem getD_appendEnd_lt (m : Msg) (bs : List Nat) (t : Nat) (ht : t < m.len)
    (hcap : m.len ≤ m.buf.length) :
    (appendEnd m bs).buf.getD t 0 = m.buf.getD t 0 := by
  unfold appendEnd
  dsimp only
  have hlt : t < (m.buf.take m.len).length := by
    simp only [List.length_take]
    omega
  rw [List.append_assoc]
  rw [List.getD_eq_getElem?_getD, ← List.get?_eq_getElem?, List.get?_append hlt,
    List.get?_eq_getElem?, ← List.getD_eq_getElem?_getD]
  exact getD_take_lt m.buf m.len t ht

theorem headerQC_appendEnd (m : Msg) (bs : List Nat) (h12 : 12 ≤ m.len)
    (hcap : m.len ≤ m.buf.length) :
    headerQuestionCount (appendEnd m bs).buf = headerQuestionCount m.buf := by
  unfold headerQuestionCount
  rw [getD_appendEnd_lt m bs 4 (by omega) hcap, getD_appendEnd_lt m bs 5 (by omega) hcap]

theorem headerAC_appendEnd (m : Msg) (bs : List Nat) (h12 : 12 ≤ m.len)
    (hcap : m.len ≤ m.buf.length) :
    headerAnswerCount (appendEnd m bs).buf = headerAnswerCount m.buf := by
  unfold headerAnswerCount
  rw [getD_appendEnd_lt m bs 6 (by omega) hcap, getD_appendEnd_lt m bs 7 (by omega) hcap]

theorem insertOpt_end' (m : Msg) (bs : List Nat) (i : Nat) (hi : i = m.len)
    (hcap : m.len + bs.length ≤ m.buf.length) :
    insertOpt m i bs = some (appendEnd m bs, i + bs.length) := by
  subst hi
  exact insertOpt_end m bs hcap

theorem literalLoopF_emits :
    ∀ (ls : List (List Nat)) (nbuf : List Nat) (p : Nat) (m : Msg) (F lf : Nat),
      WireAt nbuf p ls →
      (∀ l ∈ ls, 1 ≤ l.length ∧ l.length ≤ 63) →
      ls ≠ [] →
      headerQuestionCount m.buf = 0 →
      12 ≤ m.len →
      m.len + (wire ls).length ≤ m.buf.length →
      1 ≤ F →
      ls.length ≤ lf →
      literalLoopF nbuf F lf m m.len p =
        some (appendEnd m (wire ls), m.len + (wire ls).length) := by
  intro ls
  induction ls with
  | nil =>
    intro nbuf p m F lf _ _ hne
    exact absurd rfl hne
  | cons l t ih =>
    intro nbuf p m F lf hW hwf _ hq0 h12 hcap hF hlf
    obtain ⟨lf', rfl⟩ : ∃ lf', lf = lf' + 1 :=
      ⟨lf - 1, by simp only [List.length_cons] at hlf; omega⟩
    obtain ⟨hg, hsl, hW'⟩ := hW
    have hwl : (wire (l :: t)).length = l.length + 1 + (wire t).length := by
      rw [wire_length, wire_length, labelsTotal_cons, List.length_cons]
      omega
    have hwe : (wire ([] : List (List Nat))).length = 1 := rfl
    simp only [List.length_cons] at hlf
    simp only [literalLoopF]
    rw [labelsNextF_at_label hg (hwf l (by simp)).1 (hwf l (by simp)).2 hF]
    dsimp only
    rw [getD_of_get? hg]
    have hcapA : m.len + [l.length].length ≤ m.buf.length := by
      simp only [List.length_singleton]
      omega
    rw [insertOpt_end' m [l.length] m.len rfl hcapA]
    simp only [List.length_singleton]
    rw [hsl]
    dsimp only
    have hiB : m.len + 1 = (appendEnd m [l.length]).len := by
      rw [appendEnd_len, List.length_singleton]
    have hcapB : (appendEnd m [l.length]).len + l.length ≤ (appendEnd m [l.length]).buf.length := by
      rw [appendEnd_len, appendEnd_buf_length m [l.length] hcapA, List.length_singleton]
      omega
    rw [insertOpt_end' (appendEnd m [l.length]) l (m.len + 1) hiB hcapB]
    dsimp only
    have hcapC : m.len + [l.length].length + l.length ≤ m.buf.length := by
      simp only [List.length_singleton]
      omega
    rw [appendEnd_appendEnd m [l.length] l hcapC, List.singleton_append]
    have hm2len : (appendEnd m (l.length :: l)).len = m.len + (l.length + 1) := by
      rw [appendEnd_len, List.length_cons]
    have hm2buf : (appendEnd m (l.length :: l)).buf.length = m.buf.length := by
      rw [appendEnd_buf_length m (l.length :: l) (by rw [List.length_cons]; omega)]
    cases t with
    | nil =>
      have hg0 : nbuf.get? (p + 1 + l.length) = some 0 := hW'
      rw [labelsNextF_at_end hg0 hF]
      dsimp only
      have hiD : m.len + 1 + l.length = (appendEnd m (l.length :: l)).len := by
        rw [hm2len]
        omega
      have hcapD : (appendEnd m (l.length :: l)).len + [0].length ≤
          (appendEnd m (l.length :: l)).buf.length := by
        rw [hm2len, hm2buf, List.length_singleton]
        omega
      rw [insertOpt_end' (appendEnd m (l.length :: l)) [0] (m.len + 1 + l.length) hiD hcapD]
      have hcapE : m.len + (l.length :: l).length + [0].length ≤ m.buf.length := by
        simp only [List.length_cons, List.length_singleton, List.length_nil]
        omega
      rw [appendEnd_appendEnd m (l.length :: l) [0] hcapE]
      have hwire : (l.length :: l) ++ [0] = wire [l] := by
        rw [wire_cons]
        rfl
      rw [hwire]
      simp only [List.length_singleton]
      have hx : m.len + 1 + l.length + 1 = m.len + (wire [l]).length := by omega
      rw [hx]
    | cons l2 t2 =>
      have hg2 : nbuf.get? (p + 1 + l.length) = some l2.length := hW'.1
      rw [labelsNextF_at_label hg2 (hwf l2 (by simp)).1 (hwf l2 (by simp)).2 hF]
      dsimp only
      have hq2 : headerQuestionCount (appendEnd m (l.length :: l)).buf = 0 := by
        rw [headerQC_appendEnd m (l.length :: l) h12 (by omega)]
        exact hq0
      rw [hq2]
      simp only [addPointerF]
      have hcur : m.len + 1 + l.length = (appendEnd m (l.length :: l)).len := by
        rw [hm2len]
        omega
      rw [hcur]
      rw [ih nbuf (p + 1 + l.length) (appendEnd m (l.length :: l)) F lf' hW'
        (fun l' hl' => hwf l' (by simp [hl'])) (by simp) hq2
        (by rw [hm2len]; omega)
        (by rw [hm2len, hm2buf]; omega) hF (by simp only [List.length_cons] at hlf ⊢; omega)]
      have hcapF : m.len + (l.length :: l).length + (wire (l2 :: t2)).length ≤
          m.buf.length := by
        rw [List.length_cons]
        omega
      rw [appendEnd_appendEnd m (l.length :: l) (wire (l2 :: t2)) hcapF]
      have hwire : (l.length :: l) ++ wire (l2 :: t2) = wire (l :: l2 :: t2) :=
        (wire_cons l (l2 :: t2)).symm
      rw [hwire, hm2len]
      have hx : m.len + (l.length + 1) + (wire (l2 :: t2)).length =
          m.len + (wire (l :: l2 :: t2)).length := by omega
      rw [hx]

theorem getD_set_ne (l : List Nat) (p q v : Nat) (h : p ≠ q) :
    (l.set p v).getD q 0 = l.getD q 0 := by
  rw [List.getD_eq_getElem?_getD, ← List.get?_eq_getElem?, List.get?_set_ne v l h,
    List.get?_eq_getElem?, ← List.getD_eq_getElem?_getD]

theorem questionsEndF_zero (m : Msg) (fuel : Nat) (h : headerQuestionCount m.buf = 0) :
    questionsEndF m fuel = some HEADER_SIZE := by
  unfold questionsEndF
  rw [h]
  rfl

theorem answersEndF_zero (m : Msg) (fuel : Nat) (hq : headerQuestionCount m.buf = 0)
    (ha : headerAnswerCount m.buf = 0) :
    answersEndF m fuel = some HEADER_SIZE := by
  unfold answersEndF
  rw [questionsEndF_zero m fuel hq]
  dsimp only
  rw [ha]
  rfl

theorem literalLoopF_emits' (ls : List (List Nat)) (nbuf : List Nat) (p : Nat) (m : Msg)
    (F lf i : Nat) (hi : i = m.len)
    (hW : WireAt nbuf p ls)
    (hwf : ∀ l ∈ ls, 1 ≤ l.length ∧ l.length ≤ 63)
    (hne : ls ≠ [])
    (hq0 : headerQuestionCount m.buf = 0)
    (h12 : 12 ≤ m.len)
    (hcap : m.len + (wire ls).length ≤ m.buf.length)
    (hF : 1 ≤ F) (hlf : ls.length ≤ lf) :
    literalLoopF nbuf F lf m i p = some (appendEnd m (wire ls), i + (wire ls).length) := by
  subst hi
  exact literalLoopF_emits ls nbuf p m F lf hW hwf hne hq0 h12 hcap hF hlf

theorem qkBytes_length (k : QueryKind) : (qkBytes k).length = 2 := rfl

theorem qcBytes_length (c : QueryClass) : (qcBytes c).length = 2 := rfl

theorem beBytesU32_length (n : Nat) : (beBytesU32 n).length = 4 := rfl

theorem beBytesU16_length (n : Nat) : (beBytesU16 n).length = 2 := rfl

theorem addQuestionF_fresh
    (i1 i2 f1 f2 n1 n2 r1 r2 : Nat) (pad : List Nat) (qls : List (List Nat))
    (k : QueryKind) (c : QueryClass) (F : Nat)
    (hwq : ∀ l ∈ qls, 1 ≤ l.length ∧ l.length ≤ 63)
    (hne : qls ≠ [])
    (hcap : (wire qls).length + 4 ≤ pad.length)
    (hF1 : 1 ≤ F) (hFq : qls.length ≤ F) :
    addQuestionF ⟨[i1, i2, f1, f2, 0, 0, 0, 0, n1, n2, r1, r2] ++ pad, 12⟩ (wire qls) 0 k c F =
      some (setHeaderU16 (appendEnd ⟨[i1, i2, f1, f2, 0, 0, 0, 0, n1, n2, r1, r2] ++ pad, 12⟩
        (wire qls ++ qkBytes k ++ qcBytes c)) 4 1) := by
  have hqc0 : headerQuestionCount
      ((⟨[i1, i2, f1, f2, 0, 0, 0, 0, n1, n2, r1, r2] ++ pad, 12⟩ : Msg)).buf = 0 := rfl
  have hbuf0 : ((⟨[i1, i2, f1, f2, 0, 0, 0, 0, n1, n2, r1, r2] ++ pad, 12⟩ : Msg)).buf.length =
      12 + pad.length := by
    simp
    omega
  have hlen0 : ((⟨[i1, i2, f1, f2, 0, 0, 0, 0, n1, n2, r1, r2] ++ pad, 12⟩ : Msg)).len = 12 := rfl
  have hH : HEADER_SIZE = 12 := rfl
  have hW : WireAt (wire qls) 0 qls := by
    have h := wireAt_of_append qls [] []
    simpa using h
  unfold addQuestionF
  rw [questionsEndF_zero _ F hqc0]
  dsimp only
  unfold addNameF
  rw [hqc0]
  simp only [addPointerF]
  rw [literalLoopF_emits' qls (wire qls) 0 _ F F HEADER_SIZE rfl hW hwq hne hqc0 (by exact le_refl 12)
    (by rw [hbuf0]; dsimp only; omega) hF1 hFq]
  dsimp only
  rw [insertOpt_end' _ (qkBytes k) _ (by rw [appendEnd_len, hlen0, hH]) (by
    rw [appendEnd_len, appendEnd_buf_length _ _ (by rw [hbuf0]; dsimp only; omega), hbuf0,
      qkBytes_length]
    dsimp only
    omega)]
  dsimp only
  rw [appendEnd_appendEnd _ (wire qls) (qkBytes k) (by rw [hbuf0, qkBytes_length]; dsimp only; omega)]
  rw [insertOpt_end' _ (qcBytes c) _
    (by rw [appendEnd_len, List.length_append, qkBytes_length, hlen0, hH]; omega)
    (by
      rw [appendEnd_len, appendEnd_buf_length _ _ (by rw [hbuf0, List.length_append, qkBytes_length]; dsimp only; omega),
        hbuf0, List.length_append, qkBytes_length, qcBytes_length]
      dsimp only
      omega)]
  dsimp only
  rw [appendEnd_appendEnd _ (wire qls ++ qkBytes k) (qcBytes c) (by
    rw [hbuf0, List.length_append, qkBytes_length, qcBytes_length]
    dsimp only
    omega)]
  have hqc3 : headerQuestionCount (appendEnd
      (⟨[i1, i2, f1, f2, 0, 0, 0, 0, n1, n2, r1, r2] ++ pad, 12⟩ : Msg)
      (wire qls ++ qkBytes k ++ qcBytes c)).buf = 0 := by
    rw [headerQC_appendEnd _ _ (le_refl 12) (by rw [hbuf0]; dsimp only; omega)]
    exact hqc0
  rw [hqc3]

theorem asBytes_length (m : Msg) (hle : m.len ≤ m.buf.length) :
    m.asBytes.length = m.len := by
  rw [Msg.asBytes, List.length_take]
  omega

theorem addAnswerF_compressed (M1 : Msg) (qls als : List (List Nat))
    (k2 : QueryKind) (c2 : QueryClass) (ttl : Nat) (rdata : List Nat) (F : Nat)
    (hwq : ∀ l ∈ qls, 1 ≤ l.length ∧ l.length ≤ 63) (htq : labelsTotal qls ≤ 255)
    (hwa : ∀ l ∈ als, 1 ≤ l.length ∧ l.length ≤ 63)
    (hne : qls ≠ []) (heq : labelsEqIC qls als = true)
    (hqcM1 : headerQuestionCount M1.buf = 1)
    (hacM1 : headerAnswerCount M1.buf = 0)
    (hWq : WireAt M1.asBytes 12 qls)
    (hWa : WireAt (wire als) 0 als)
    (hM1len : M1.len = 12 + (wire qls).length + 4)
    (hcap : M1.len + (12 + rdata.length) ≤ M1.buf.length)
    (hF : qls.length + 2 ≤ F) :
    addAnswerF M1 (wire als) 0 k2 c2 ttl rdata F =
      some (setHeaderU16 (appendEnd M1 ([192, 12] ++ qkBytes k2 ++ qcBytes c2 ++
        beBytesU32 ttl ++ beBytesU16 rdata.length ++ rdata)) 6 1) := by
  have hle : M1.len ≤ M1.buf.length := by omega
  have hab : M1.asBytes.length = M1.len := asBytes_length M1 hle
  have hH12 : HEADER_SIZE = 12 := rfl
  have hlp : ([192, 12] : List Nat).length = 2 := rfl
  have hqkl := qkBytes_length k2
  have hqcl := qcBytes_length c2
  have httl := beBytesU32_length ttl
  have hrdl := beBytesU16_length rdata.length
  have hqread : questionReadF M1.asBytes F HEADER_SIZE =
      some (true, 12 + (wire qls).length + 4) :=
    questionReadF_wireAt hWq hwq htq (by omega) (by omega)
  have hqe : questionsEndF M1 F = some (12 + (wire qls).length + 4) := by
    unfold questionsEndF
    rw [hqcM1]
    simp only [readRecordsF]
    rw [hqread]
  have hae : answersEndF M1 F = some (12 + (wire qls).length + 4) := by
    unfold answersEndF
    rw [hqe]
    dsimp only
    rw [hacM1]
    rfl
  unfold addAnswerF
  rw [hae]
  dsimp only
  unfold addNameF
  rw [hqcM1]
  simp only [addPointerF]
  rw [hqread]
  dsimp only
  rw [show createPointerF M1.asBytes (wire als) 0 F HEADER_SIZE =
    some (some ((12 : Nat) / 256 % 256 ||| 192, (12 : Nat) % 256)) from
    createPointerF_hit hWq hWa hwq hwa hne heq hF]
  rw [show ((12 : Nat) / 256 % 256 ||| 192, (12 : Nat) % 256) = ((192 : Nat), (12 : Nat)) from
    by decide]
  dsimp only
  rw [insertOpt_end' M1 [192, 12] _ hM1len.symm (by
    rw [show ([192, 12] : List Nat).length = 2 from rfl]
    omega)]
  dsimp only
  rw [insertOpt_end' _ (qkBytes k2) _
    (by rw [appendEnd_len, show ([192, 12] : List Nat).length = 2 from rfl]; omega)
    (by
      rw [appendEnd_len, appendEnd_buf_length _ _ (by
          rw [show ([192, 12] : List Nat).length = 2 from rfl]; omega),
        show ([192, 12] : List Nat).length = 2 from rfl, qkBytes_length]
      omega)]
  dsimp only
  rw [appendEnd_appendEnd _ [192, 12] (qkBytes k2) (by
    rw [show ([192, 12] : List Nat).length = 2 from rfl, qkBytes_length]
    omega)]
  have hl2 : ([192, 12] ++ qkBytes k2).length = 4 := by
    rw [List.length_append]
    omega
  rw [insertOpt_end' _ (qcBytes c2) _
    (by rw [appendEnd_len, hl2]; omega)
    (by
      rw [appendEnd_len, appendEnd_buf_length _ _ (by rw [hl2]; omega), hl2, qcBytes_length]
      omega)]
  dsimp only
  rw [appendEnd_appendEnd _ ([192, 12] ++ qkBytes k2) (qcBytes c2) (by
    rw [hl2, qcBytes_length]
    omega)]
  have hl3 : ([192, 12] ++ qkBytes k2 ++ qcBytes c2).length = 6 := by
    rw [List.length_append, hl2]
    omega
  rw [insertOpt_end' _ (beBytesU32 ttl) _
    (by rw [appendEnd_len, hl3]; omega)
    (by
      rw [appendEnd_len, appendEnd_buf_length _ _ (by rw [hl3]; omega), hl3, beBytesU32_length]
      omega)]
  dsimp only
  rw [appendEnd_appendEnd _ ([192, 12] ++ qkBytes k2 ++ qcBytes c2) (beBytesU32 ttl) (by
    rw [hl3, beBytesU32_length]
    omega)]
  have hl4 : ([192, 12] ++ qkBytes k2 ++ qcBytes c2 ++ beBytesU32 ttl).length = 10 := by
    rw [List.length_append, hl3]
    omega
  rw [insertOpt_end' _ (beBytesU16 rdata.length) _
    (by rw [appendEnd_len, hl4]; omega)
    (by
      rw [appendEnd_len, appendEnd_buf_length _ _ (by rw [hl4]; omega), hl4, beBytesU16_length]
      omega)]
  dsimp only
  rw [appendEnd_appendEnd _ ([192, 12] ++ qkBytes k2 ++ qcBytes c2 ++ beBytesU32 ttl)
    (beBytesU16 rdata.length) (by
      rw [hl4, beBytesU16_length]
      omega)]
  have hl5 : ([192, 12] ++ qkBytes k2 ++ qcBytes c2 ++ beBytesU32 ttl ++
      beBytesU16 rdata.length).length = 12 := by
    rw [List.length_append, hl4]
    omega
  rw [insertOpt_end' _ rdata _
    (by rw [appendEnd_len, hl5]; omega)
    (by
      rw [appendEnd_len, appendEnd_buf_length _ _ (by rw [hl5]; omega), hl5]
      omega)]
  dsimp only
  rw [appendEnd_appendEnd _ ([192, 12] ++ qkBytes k2 ++ qcBytes c2 ++ beBytesU32 ttl ++
    beBytesU16 rdata.length) rdata (by
      rw [hl5]
      omega)]
  have hac6 : headerAnswerCount (appendEnd M1 ([192, 12] ++ qkBytes k2 ++ qcBytes c2 ++
      beBytesU32 ttl ++ beBytesU16 rdata.length ++ rdata)).buf = 0 := by
    rw [headerAC_appendEnd M1 _ (by omega) hle]
    exact hacM1
  rw [hac6]

theorem appendEnd_shape (hdr pad Q : List Nat) (n : Nat) (hh : hdr.length = n)
    (_hcap : Q.length ≤ pad.length) :
    (appendEnd ⟨hdr ++ pad, n⟩ Q).buf = hdr ++ (Q ++ pad.drop Q.length) := by
  unfold appendEnd
  dsimp only
  rw [← hh, List.take_left, List.drop_append]
  rw [List.append_assoc]

theorem sliceOpt_append_exact (pre mid : List Nat) :
    sliceOpt (pre ++ mid) pre.length mid.length = some mid := by
  have h := sliceOpt_append_mid pre mid []
  simpa using h

theorem setHeaderU16_appendEnd_slice (m : Msg) (bs : List Nat) (pos v : Nat)
    (hpos : pos + 1 < m.len) (hle : m.len + bs.length ≤ m.buf.length) :
    sliceOpt (setHeaderU16 (appendEnd m bs) pos v).asBytes m.len bs.length = some bs := by
  have hT : (m.buf.take m.len).length = m.len := by
    rw [List.length_take]
    omega
  have hbuf : (setHeaderU16 (appendEnd m bs) pos v).buf =
      (((m.buf.take m.len).set pos (v / 256 % 256)).set (pos + 1) (v % 256) ++ bs) ++
        m.buf.drop (m.len + bs.length) := by
    unfold setHeaderU16 appendEnd
    dsimp only
    rw [List.set_append_left pos (v / 256 % 256) (by
      simp only [List.length_append, List.length_take]
      omega)]
    rw [List.set_append_left pos (v / 256 % 256) (by
      simp only [List.length_take]
      omega)]
    rw [List.set_append_left (pos + 1) (v % 256) (by
      simp only [List.length_append, List.length_set, List.length_take]
      omega)]
    rw [List.set_append_left (pos + 1) (v % 256) (by
      simp only [List.length_set, List.length_take]
      omega)]
  have hT2 : (((m.buf.take m.len).set pos (v / 256 % 256)).set (pos + 1) (v % 256)).length
      = m.len := by
    rw [List.length_set, List.length_set, hT]
  have hasB2 : (setHeaderU16 (appendEnd m bs) pos v).asBytes =
      ((m.buf.take m.len).set pos (v / 256 % 256)).set (pos + 1) (v % 256) ++ bs := by
    unfold Msg.asBytes
    rw [hbuf]
    have hlen : (setHeaderU16 (appendEnd m bs) pos v).len = m.len + bs.length := rfl
    rw [hlen]
    exact List.take_left' (by rw [List.length_append, hT2])
  rw [hasB2]
  have h := sliceOpt_append_exact
    (((m.buf.take m.len).set pos (v / 256 % 256)).set (pos + 1) (v % 256)) bs
  rw [hT2] at h
  exact h

/-- Claim C3: compression candidates are exactly the questions present at
the time of the call.  First, generally: starting from a fresh builder
message (zeroed counts, logical length 12), adding a question with a
pointer-free name `qls` and then an answer whose name `als` equals `qls`
ASCII case-insensitively emits, for the answer's name, exactly the
2-byte compression pointer `[0xC0, 12]` to the question's name at offset
12 — not a literal label sequence — followed by the answer's fixed
fields.  Second, concretely: adding the same answer twice to a message
with no questions emits the literal name both times — a prior identical
Answer is never a compression candidate. -/
theorem add_answer_compresses_against_questions
    (i1 i2 f1 f2 n1 n2 r1 r2 : Nat) (pad : List Nat) (qls als : List (List Nat))
    (k k2 : QueryKind) (c c2 : QueryClass) (ttl : Nat) (rdata : List Nat)
    (hwq : ∀ l ∈ qls, 1 ≤ l.length ∧ l.length ≤ 63) (htq : labelsTotal qls ≤ 255)
    (hwa : ∀ l ∈ als, 1 ≤ l.length ∧ l.length ≤ 63)
    (hne : qls ≠ []) (heq : labelsEqIC qls als = true)
    (hcap : (wire qls).length + 16 + rdata.length ≤ pad.length) :
    ∃ F M1 M2,
      addQuestionF ⟨[i1, i2, f1, f2, 0, 0, 0, 0, n1, n2, r1, r2] ++ pad, 12⟩
        (wire qls) 0 k c F = some M1 ∧
      addAnswerF M1 (wire als) 0 k2 c2 ttl rdata F = some M2 ∧
      M1.len = 12 + ((wire qls).length + 4) ∧
      sliceOpt M1.asBytes 12 (wire qls).length = some (wire qls) ∧
      M2.len = M1.len + (12 + rdata.length) ∧
      sliceOpt M2.asBytes M1.len (12 + rdata.length) =
        some ([192, 12] ++ qkBytes k2 ++ qcBytes c2 ++ beBytesU32 ttl ++
          beBytesU16 rdata.length ++ rdata) ∧
      ((addAnswerF demo0 demoName 0 QueryKind.A QueryClass.IN 7 [9] 20).map Msg.asBytes =
        some ([0, 0, 0, 0, 0, 0, 0, 1, 0, 0, 0, 0] ++ demoRec)) ∧
      (((addAnswerF demo0 demoName 0 QueryKind.A QueryClass.IN 7 [9] 20).bind
          (fun d1 => addAnswerF d1 demoName 0 QueryKind.A QueryClass.IN 7 [9] 20)).map
            Msg.asBytes =
        some ([0, 0, 0, 0, 0, 0, 0, 2, 0, 0, 0, 0] ++ demoRec ++ demoRec)) := by
  have hQlen : (wire qls ++ qkBytes k ++ qcBytes c).length = (wire qls).length + 4 := by
    rw [List.length_append, List.length_append, qkBytes_length, qcBytes_length]
  have hAlen : ([192, 12] ++ qkBytes k2 ++ qcBytes c2 ++ beBytesU32 ttl ++
      beBytesU16 rdata.length ++ rdata).length = 12 + rdata.length := by
    simp only [List.length_append, qkBytes_length, qcBytes_length, beBytesU32_length,
      beBytesU16_length]
    rfl
  have hbufA : (appendEnd (⟨[i1, i2, f1, f2, 0, 0, 0, 0, n1, n2, r1, r2] ++ pad, 12⟩ : Msg)
      (wire qls ++ qkBytes k ++ qcBytes c)).buf =
      [i1, i2, f1, f2, 0, 0, 0, 0, n1, n2, r1, r2] ++
        ((wire qls ++ qkBytes k ++ qcBytes c) ++
          pad.drop (wire qls ++ qkBytes k ++ qcBytes c).length) :=
    appendEnd_shape _ pad _ 12 rfl (by rw [hQlen]; omega)
  have hM1buf : (setHeaderU16 (appendEnd
      (⟨[i1, i2, f1, f2, 0, 0, 0, 0, n1, n2, r1, r2] ++ pad, 12⟩ : Msg)
      (wire qls ++ qkBytes k ++ qcBytes c)) 4 1).buf =
      [i1, i2, f1, f2, 0, 1, 0, 0, n1, n2, r1, r2] ++
        ((wire qls ++ qkBytes k ++ qcBytes c) ++
          pad.drop (wire qls ++ qkBytes k ++ qcBytes c).length) := by
    unfold setHeaderU16
    dsimp only
    rw [hbufA]
    rw [List.set_append_left 4 (1 / 256 % 256) (by norm_num),
      List.set_append_left 5 (1 % 256) (by norm_num)]
    norm_num
  have hM1len : (setHeaderU16 (appendEnd
      (⟨[i1, i2, f1, f2, 0, 0, 0, 0, n1, n2, r1, r2] ++ pad, 12⟩ : Msg)
      (wire qls ++ qkBytes k ++ qcBytes c)) 4 1).len = 12 + ((wire qls).length + 4) := by
    show (appendEnd _ _).len = _
    rw [appendEnd_len, hQlen]
  have hM1buflen : (setHeaderU16 (appendEnd
      (⟨[i1, i2, f1, f2, 0, 0, 0, 0, n1, n2, r1, r2] ++ pad, 12⟩ : Msg)
      (wire qls ++ qkBytes k ++ qcBytes c)) 4 1).buf.length = 12 + pad.length := by
    rw [hM1buf]
    simp only [List.length_append, List.length_drop, hQlen, List.length_cons,
      List.length_nil]
    omega
  have hasB : (setHeaderU16 (appendEnd
      (⟨[i1, i2, f1, f2, 0, 0, 0, 0, n1, n2, r1, r2] ++ pad, 12⟩ : Msg)
      (wire qls ++ qkBytes k ++ qcBytes c)) 4 1).asBytes =
      [i1, i2, f1, f2, 0, 1, 0, 0, n1, n2, r1, r2] ++
        (wire qls ++ qkBytes k ++ qcBytes c) := by
    unfold Msg.asBytes
    rw [hM1buf, hM1len, ← List.append_assoc]
    rw [List.take_left' (by
      simp only [List.length_append, List.length_cons, List.length_nil, hQlen])]
  have hregroup : ([i1, i2, f1, f2, 0, 1, 0, 0, n1, n2, r1, r2] : List Nat) ++
      (wire qls ++ qkBytes k ++ qcBytes c) =
      [i1, i2, f1, f2, 0, 1, 0, 0, n1, n2, r1, r2] ++
        (wire qls ++ (qkBytes k ++ qcBytes c)) := by
    simp [List.append_assoc]
  have hWq : WireAt (setHeaderU16 (appendEnd
      (⟨[i1, i2, f1, f2, 0, 0, 0, 0, n1, n2, r1, r2] ++ pad, 12⟩ : Msg)
      (wire qls ++ qkBytes k ++ qcBytes c)) 4 1).asBytes 12 qls := by
    rw [hasB, hregroup]
    have h := wireAt_of_append qls [i1, i2, f1, f2, 0, 1, 0, 0, n1, n2, r1, r2]
      (qkBytes k ++ qcBytes c)
    simpa using h
  have hqcM1 : headerQuestionCount (setHeaderU16 (appendEnd
      (⟨[i1, i2, f1, f2, 0, 0, 0, 0, n1, n2, r1, r2] ++ pad, 12⟩ : Msg)
      (wire qls ++ qkBytes k ++ qcBytes c)) 4 1).buf = 1 := by
    rw [hM1buf]
    rfl
  have hacM1 : headerAnswerCount (setHeaderU16 (appendEnd
      (⟨[i1, i2, f1, f2, 0, 0, 0, 0, n1, n2, r1, r2] ++ pad, 12⟩ : Msg)
      (wire qls ++ qkBytes k ++ qcBytes c)) 4 1).buf = 0 := by
    rw [hM1buf]
    rfl
  have hWa : WireAt (wire als) 0 als := by
    have h := wireAt_of_append als [] []
    simpa using h
  refine ⟨qls.length + 2,
    setHeaderU16 (appendEnd ⟨[i1, i2, f1, f2, 0, 0, 0, 0, n1, n2, r1, r2] ++ pad, 12⟩
      (wire qls ++ qkBytes k ++ qcBytes c)) 4 1,
    setHeaderU16 (appendEnd
      (setHeaderU16 (appendEnd ⟨[i1, i2, f1, f2, 0, 0, 0, 0, n1, n2, r1, r2] ++ pad, 12⟩
        (wire qls ++ qkBytes k ++ qcBytes c)) 4 1)
      ([192, 12] ++ qkBytes k2 ++ qcBytes c2 ++ beBytesU32 ttl ++
        beBytesU16 rdata.length ++ rdata)) 6 1,
    addQuestionF_fresh i1 i2 f1 f2 n1 n2 r1 r2 pad qls k c (qls.length + 2) hwq hne
      (by omega) (by omega) (by omega), ?_, ?_, ?_, ?_, ?_, by decide, by decide⟩
  · exact addAnswerF_compressed _ qls als k2 c2 ttl rdata _ hwq htq hwa hne heq
      hqcM1 hacM1 hWq hWa hM1len (by rw [hM1len, hM1buflen]; omega) (by omega)
  · exact hM1len
  · rw [hasB, hregroup]
    rw [show (12 : Nat) =
      ([i1, i2, f1, f2, 0, 1, 0, 0, n1, n2, r1, r2] : List Nat).length from rfl]
    exact sliceOpt_append_mid _ _ _
  · show (appendEnd _ _).len = _
    rw [appendEnd_len, hAlen]
  · rw [← hAlen]
    exact setHeaderU16_appendEnd_slice _ _ 6 1 (by rw [hM1len]; omega)
      (by rw [hM1len, hM1buflen, hAlen]; omega)

/-- Witness for C3 at a concrete instantiation: a zeroed 36-byte builder,
question name `a.b` (labels `[97]`, `[98]`), answer name `A.B` (equal
case-insensitively), kind A, class IN, ttl 7, 1-byte RDATA `[9]`. -/
theorem add_answer_compresses_against_questions_witness :
    ∃ F M1 M2,
      addQuestionF ⟨[0, 0, 0, 0, 0, 0, 0, 0, 0, 0, 0, 0] ++ List.replicate 24 0, 12⟩
        (wire [[97], [98]]) 0 QueryKind.A QueryClass.IN F = some M1 ∧
      addAnswerF M1 (wire [[65], [66]]) 0 QueryKind.A QueryClass.IN 7 [9] F = some M2 ∧
      M1.len = 12 + ((wire [[97], [98]]).length + 4) ∧
      sliceOpt M1.asBytes 12 (wire [[97], [98]]).length = some (wire [[97], [98]]) ∧
      M2.len = M1.len + (12 + ([9] : List Nat).length) ∧
      sliceOpt M2.asBytes M1.len (12 + ([9] : List Nat).length) =
        some ([192, 12] ++ qkBytes QueryKind.A ++ qcBytes QueryClass.IN ++ beBytesU32 7 ++
          beBytesU16 ([9] : List Nat).length ++ [9]) ∧
      ((addAnswerF demo0 demoName 0 QueryKind.A QueryClass.IN 7 [9] 20).map Msg.asBytes =
        some ([0, 0, 0, 0, 0, 0, 0, 1, 0, 0, 0, 0] ++ demoRec)) ∧
      (((addAnswerF demo0 demoName 0 QueryKind.A QueryClass.IN 7 [9] 20).bind
          (fun d1 => addAnswerF d1 demoName 0 QueryKind.A QueryClass.IN 7 [9] 20)).map
            Msg.asBytes =
        some ([0, 0, 0, 0, 0, 0, 0, 2, 0, 0, 0, 0] ++ demoRec ++ demoRec)) :=
  add_answer_compresses_against_questions 0 0 0 0 0 0 0 0 (List.replicate 24 0)
    [[97], [98]] [[65], [66]] QueryKind.A QueryKind.A QueryClass.IN QueryClass.IN 7 [9]
    (by decide) (by decide) (by decide) (by decide) (by decide) (by decide)

/-- Claim C7: for a name that decodes to the label sequence `ls`, the
`PartialEq<str>` comparison against a byte string `other` returns
`true` exactly when `other` is the labels of `ls` in order, separated by
single dots, with each byte compared ASCII case-insensitively — i.e. the
comparison computes `eqICList (dotted ls) other`.  In particular the
name equals its lowercase and uppercase dotted forms and differs from
any string with an extra leading or trailing dot or with dots replaced
by dashes. -/
theorem name_eq_str_iff (buf other : List Nat) (start : Nat) (ls : List (List Nat))
    (h : NameLabels buf start ls) :
    ∃ f0, ∀ f, f0 ≤ f → nameEqF buf other f start 0 = some (eqICList (dotted ls) other) := by
  obtain ⟨f0, hf0⟩ := nameEqF_matches h other 0 (Nat.zero_le _)
  refine ⟨f0, fun f hf => ?_⟩
  simpa using hf0 f hf

theorem capNameLabels : NameLabels capName 0 capLabels := by
  refine NameLabels.cons
    (show LabelType.read capName 0 = some (LabelType.Part 7, 8) from by decide)
    (by decide) (by decide)
    (show sliceOpt capName 1 7 = some [99, 97, 112, 116, 105, 118, 101] from by decide) ?_
  refine NameLabels.cons
    (show LabelType.read capName 8 = some (LabelType.Part 5, 14) from by decide)
    (by decide) (by decide)
    (show sliceOpt capName 9 5 = some [97, 112, 112, 108, 101] from by decide) ?_
  refine NameLabels.cons
    (show LabelType.read capName 14 = some (LabelType.Part 3, 18) from by decide)
    (by decide) (by decide)
    (show sliceOpt capName 15 3 = some [99, 111, 109] from by decide) ?_
  exact NameLabels.nil (show LabelType.read capName 18 = some (LabelType.Part 0, 19) from by decide)

/-- Witness for C7: captive.apple.com compares equal to its lowercase
and uppercase dotted forms and unequal to the leading-dot, trailing-dot
and dashed variants. -/
theorem name_eq_str_iff_witness :
    (∃ f0, ∀ f, f0 ≤ f → nameEqF capName strLower f 0 0 = some true) ∧
    (∃ f0, ∀ f, f0 ≤ f → nameEqF capName strUpper f 0 0 = some true) ∧
    (∃ f0, ∀ f, f0 ≤ f → nameEqF capName (46 :: strLower) f 0 0 = some false) ∧
    (∃ f0, ∀ f, f0 ≤ f → nameEqF capName (strLower ++ [46]) f 0 0 = some false) ∧
    (∃ f0, ∀ f, f0 ≤ f → nameEqF capName strDashes f 0 0 = some false) := by
  refine ⟨?_, ?_, ?_, ?_, ?_⟩
  · obtain ⟨f0, hf⟩ := name_eq_str_iff capName strLower 0 capLabels capNameLabels
    exact ⟨f0, fun f hle => (hf f hle).trans (by decide)⟩
  · obtain ⟨f0, hf⟩ := name_eq_str_iff capName strUpper 0 capLabels capNameLabels
    exact ⟨f0, fun f hle => (hf f hle).trans (by decide)⟩
  · obtain ⟨f0, hf⟩ := name_eq_str_iff capName (46 :: strLower) 0 capLabels capNameLabels
    exact ⟨f0, fun f hle => (hf f hle).trans (by decide)⟩
  · obtain ⟨f0, hf⟩ := name_eq_str_iff capName (strLower ++ [46]) 0 capLabels capNameLabels
    exact ⟨f0, fun f hle => (hf f hle).trans (by decide)⟩
  · obtain ⟨f0, hf⟩ := name_eq_str_iff capName strDashes 0 capLabels capNameLabels
    exact ⟨f0, fun f hle => (hf f hle).trans (by decide)⟩

end Dnsparse
